import Mathlib

/-!
Verification development for the FerriLab repository (uncertainty-propagating
Measure type, rounding policy, linear/weighted least squares, Nelder-Mead
curve fitting).

Conventions of the shallow embedding:
* `f64` arithmetic is idealised as exact arithmetic, over `ℚ` for the purely
  decimal code (rounding policy, constructor length logic, the Nelder-Mead
  control flow) so that definitions stay executable, and over `ℝ` for the code
  that takes real square roots and transcendental functions (error
  propagation, fits).
* `f64::log10().floor()` is modelled by `Int.log 10`, `f64::ceil` by `Int.ceil`,
  `f64::trunc` by truncation toward zero.  NaN/infinity do not exist in `ℚ`/`ℝ`;
  all inputs considered here are the finite ones.
* Rust `Vec<f64>` becomes `List ℚ` / `List ℝ`; indexing `v[i]` (which panics
  out of bounds, a case never reached in the modelled paths) becomes `List.getD`.
-/

namespace FerriLab

/-! ## Rounding policy, src/src/aprox.rs, over ℚ -/

/-- Transcribes `round` from src/src/aprox.rs:
`(value * multiplier - 0.5).ceil() / multiplier` with `multiplier = 10^decimal_places`. -/
def roundQ (value : ℚ) (decimalPlaces : ℤ) : ℚ :=
  let multiplier : ℚ := (10 : ℚ) ^ decimalPlaces
  (⌈value * multiplier - 1/2⌉ : ℚ) / multiplier

/-- Truncation toward zero of a rational to an integer, models `f64::trunc`. -/
def ztrunc (x : ℚ) : ℤ :=
  if 0 ≤ x then ⌊x⌋ else ⌈x⌉

/-- Transcribes `trucate` (sic) from src/src/aprox.rs:
`(value * multiplier).trunc() / multiplier`. -/
def truncQ (value : ℚ) (decimalPlaces : ℤ) : ℚ :=
  let multiplier : ℚ := (10 : ℚ) ^ decimalPlaces
  (ztrunc (value * multiplier) : ℚ) / multiplier

/-- Transcribes `aprox` from src/src/aprox.rs (finite branch; `ℚ` has no
NaN/∞, and the `error == 0` early return is kept).  The Rust test
`new_error.log10() == new_error.log10().floor()` holds exactly when
`new_error` is a positive integer power of ten, and
`first_sigificative_figure = -(error.abs().log10().floor())` is modelled with
`Int.log 10`. -/
def aproxQ (value error : ℚ) : ℚ × ℚ :=
  if error = 0 then (value, error)
  else
    let fsf : ℤ := -(Int.log 10 |error|)
    let newError := truncQ error fsf
    if 0 < newError ∧ newError = (10 : ℚ) ^ (Int.log 10 newError) ∧
        roundQ error fsf = (10 : ℚ) ^ (-fsf) then
      (roundQ value (fsf + 1), roundQ error (fsf + 1))
    else
      (roundQ value fsf, roundQ error fsf)

/-! ## Measure data model, src/src/objects.rs -/

/-- Transcribes `enum Style` from src/src/objects.rs. -/
inductive Style where
  | List
  | PM
  | Table
  | LatexTable
  | TypstTable
deriving DecidableEq, Repr

/-- Transcribes `enum MyError` from src/src/objects.rs (single variant
`InvalidErrorLen`). -/
inductive MyError where
  | invalidErrorLen
deriving DecidableEq, Repr

/-- The struct `Measure` over ℚ (used for the constructor length logic and
the significant-figure approximation, which are exact decimal computations). -/
structure MeasureQ where
  value : List ℚ
  error : List ℚ
  style : Style
deriving DecidableEq, Repr

/-- Transcribes `Measure::new` from src/src/objects.rs, over ℚ:
reject when `value.len() != error.len() && error.len() != 1`, otherwise
broadcast a length-1 error vector, then optionally `aprox` each pair. -/
def measureNewQ (value error : List ℚ) (aproximate : Bool) : Except MyError MeasureQ :=
  if value.length ≠ error.length ∧ error.length ≠ 1 then
    .error .invalidErrorLen
  else
    let error := if error.length = 1 then List.replicate value.length (error.getD 0 0) else error
    if aproximate then
      let tuples := (value.zip error).map (fun p => aproxQ p.1 p.2)
      .ok ⟨tuples.map Prod.fst, tuples.map Prod.snd, .PM⟩
    else
      .ok ⟨value, error, .PM⟩

/-- Transcribes `Measure::aprox` from src/src/objects.rs, over ℚ:
map `aprox` over the zipped (value, error) pairs and split the tuples back. -/
def MeasureQ.aprox (m : MeasureQ) : MeasureQ :=
  let tuples := (m.value.zip m.error).map (fun p => aproxQ p.1 p.2)
  { value := tuples.map Prod.fst, error := tuples.map Prod.snd, style := m.style }

/-! ## Rounding policy over ℝ (same transcription, used by the ℝ-valued
`Measure` below, whose error propagation takes real square roots) -/

/-- `round` from src/src/aprox.rs over ℝ. -/
noncomputable def roundR (value : ℝ) (decimalPlaces : ℤ) : ℝ :=
  let multiplier : ℝ := (10 : ℝ) ^ decimalPlaces
  (⌈value * multiplier - 1/2⌉ : ℝ) / multiplier

/-- Truncation toward zero over ℝ, models `f64::trunc`. -/
noncomputable def ztruncR (x : ℝ) : ℤ :=
  if 0 ≤ x then ⌊x⌋ else ⌈x⌉

/-- `trucate` from src/src/aprox.rs over ℝ. -/
noncomputable def truncR (value : ℝ) (decimalPlaces : ℤ) : ℝ :=
  let multiplier : ℝ := (10 : ℝ) ^ decimalPlaces
  (ztruncR (value * multiplier) : ℝ) / multiplier

/-- `aprox` from src/src/aprox.rs over ℝ (finite branch, as for `aproxQ`). -/
noncomputable def aproxR (value error : ℝ) : ℝ × ℝ :=
  if error = 0 then (value, error)
  else
    let fsf : ℤ := -(Int.log 10 |error|)
    let newError := truncR error fsf
    if 0 < newError ∧ newError = (10 : ℝ) ^ (Int.log 10 newError) ∧
        roundR error fsf = (10 : ℝ) ^ (-fsf) then
      (roundR value (fsf + 1), roundR error (fsf + 1))
    else
      (roundR value fsf, roundR error fsf)

/-- The struct `Measure` from src/src/objects.rs over ℝ. -/
structure Measure where
  value : List ℝ
  error : List ℝ
  style : Style

/-- `atan2` of f64, modelled as the argument of the complex number `x + y·i`
(which is the mathematical content of `y.atan2(x)`). -/
noncomputable def atan2R (y x : ℝ) : ℝ :=
  Complex.arg ⟨x, y⟩

namespace Measure

/-- `Measure::len`: `self.value.len()`. -/
def len (m : Measure) : ℕ := m.value.length

/-- `Measure::new` from src/src/objects.rs over ℝ. -/
noncomputable def new (value error : List ℝ) (aproximate : Bool) : Except MyError Measure :=
  if value.length ≠ error.length ∧ error.length ≠ 1 then
    .error .invalidErrorLen
  else
    let error := if error.length = 1 then List.replicate value.length (error.getD 0 0) else error
    if aproximate then
      let tuples := (value.zip error).map (fun p => aproxR p.1 p.2)
      .ok ⟨tuples.map Prod.fst, tuples.map Prod.snd, .PM⟩
    else
      .ok ⟨value, error, .PM⟩

/-- `Measure::change_style`. -/
def changeStyle (m : Measure) (style : Style) : Measure :=
  { value := m.value, error := m.error, style := style }

/-- `Measure::set`: `self.value[index] = m.0; self.error[index] = m.1`
(Rust panics out of bounds; `List.set` is the identity there, a case the
claims do not touch). -/
def set (m : Measure) (index : ℕ) (p : ℝ × ℝ) : Measure :=
  { value := m.value.set index p.1, error := m.error.set index p.2, style := m.style }

/-- `Measure::set_value`. -/
def setValue (m : Measure) (index : ℕ) (v : ℝ) : Measure :=
  { value := m.value.set index v, error := m.error, style := m.style }

/-- `Measure::set_error`. -/
def setError (m : Measure) (index : ℕ) (e : ℝ) : Measure :=
  { value := m.value, error := m.error.set index e, style := m.style }

/-- The `FromIterator<(A, B)>` impl for `Measure`: collect pairs into the two
vectors, style `PM`. -/
def ofList (l : List (ℝ × ℝ)) : Measure :=
  { value := l.map Prod.fst, error := l.map Prod.snd, style := .PM }

/-- `Measure::aprox` over ℝ. -/
noncomputable def aprox (m : Measure) : Measure :=
  let tuples := (m.value.zip m.error).map (fun p => aproxR p.1 p.2)
  { value := tuples.map Prod.fst, error := tuples.map Prod.snd, style := m.style }

/-- `Measure::mean`: `Σ values / len`. -/
noncomputable def mean (m : Measure) : ℝ :=
  m.value.sum / (m.len : ℝ)

/-- `Measure::standard_deviation` (sample, divisor `n - 1`). -/
noncomputable def standardDeviation (m : Measure) : ℝ :=
  Real.sqrt ((m.value.map (fun val => (val - m.mean) ^ 2)).sum / ((m.len : ℝ) - 1))

/-- `Measure::standard_error`: `std_dev / sqrt n`. -/
noncomputable def standardError (m : Measure) : ℝ :=
  m.standardDeviation / Real.sqrt (m.len : ℝ)

/-- `Measure::estimation`: all values replaced by the mean, each error the
quadrature sum of the standard error and the original error. -/
noncomputable def estimation (m : Measure) : Measure :=
  { value := List.replicate m.len m.mean
    error := m.error.map (fun err => Real.sqrt (m.standardError ^ 2 + err ^ 2))
    style := .PM }

/-- `Measure::pow`: value `v^p`, error `|p·v^(p-1)·σ|` (f64 `powf`, modelled
with `Real.rpow`). -/
noncomputable def powM (m : Measure) (other : ℝ) : Measure :=
  { value := m.value.map (fun val => Real.rpow val other)
    error := (m.value.zip m.error).map
      (fun p => |other * Real.rpow p.1 (other - 1) * p.2|)
    style := .PM }

/-- `Measure::rad`: scale value and error by `π/180`. -/
noncomputable def rad (m : Measure) : Measure :=
  { value := m.value.map (fun val => val * Real.pi / 180)
    error := m.error.map (fun err => err * Real.pi / 180)
    style := .PM }

/-- `Measure::grad`: scale value and error by `180/π`. -/
noncomputable def grad (m : Measure) : Measure :=
  { value := m.value.map (fun val => val * 180 / Real.pi)
    error := m.error.map (fun err => err * 180 / Real.pi)
    style := .PM }

/-- `Measure::sqrt`: value `√v`, error `σ/(2√v)`. -/
noncomputable def sqrtM (m : Measure) : Measure :=
  { value := m.value.map Real.sqrt
    error := (m.value.zip m.error).map (fun p => p.2 / (2 * Real.sqrt p.1))
    style := .PM }

/-- `Measure::abs`: absolute values, errors unchanged. -/
def absM (m : Measure) : Measure :=
  { value := m.value.map (fun val => |val|), error := m.error, style := .PM }

/-- `Measure::sin`, with the finite-difference fallback where `sin v = ±1`. -/
noncomputable def sinM (m : Measure) : Measure :=
  let value := m.value.map Real.sin
  { value := value
    error := ((m.value.zip m.error).zip value).map (fun p =>
      if p.2 = 1 ∨ p.2 = -1 then |Real.sin (p.1.1 + p.1.2) - Real.sin p.1.1|
      else |Real.cos p.1.1 * p.1.2|)
    style := .PM }

/-- `Measure::cos`, with the finite-difference fallback where `cos v = ±1`. -/
noncomputable def cosM (m : Measure) : Measure :=
  let value := m.value.map Real.cos
  { value := value
    error := ((m.value.zip m.error).zip value).map (fun p =>
      if p.2 = 1 ∨ p.2 = -1 then |Real.cos (p.1.1 + p.1.2) - Real.cos p.1.1|
      else |Real.sin p.1.1 * p.1.2|)
    style := .PM }

/-- `Measure::tan`: error `(1 + tan²v)·σ`. -/
noncomputable def tanM (m : Measure) : Measure :=
  let value := m.value.map Real.tan
  { value := value
    error := (m.error.zip value).map (fun p => (1 + p.2 ^ 2) * p.1)
    style := .PM }

/-- `Measure::asin`, with the secant fallback at `v = ±1`. -/
noncomputable def asinM (m : Measure) : Measure :=
  { value := m.value.map Real.arcsin
    error := (m.value.zip m.error).map (fun p =>
      if p.1 ≠ 1 ∧ p.1 ≠ -1 then p.2 / Real.sqrt (1 - p.1 ^ 2)
      else |Real.arcsin (p.1 - p.2) - p.1|)
    style := .PM }

/-- `Measure::acos`, with the toward-zero perturbed fallback at `v = ±1`. -/
noncomputable def acosM (m : Measure) : Measure :=
  { value := m.value.map Real.arccos
    error := (m.value.zip m.error).map (fun p =>
      if p.1 ≠ 1 ∧ p.1 ≠ -1 then p.2 / Real.sqrt (1 - p.1 ^ 2)
      else
        let d := if 0 < p.1 then p.1 - p.2 else p.1 + p.2
        |Real.arccos d - Real.arccos p.1|)
    style := .PM }

/-- `Measure::atan`: error `σ/(1 + v²)`. -/
noncomputable def atanM (m : Measure) : Measure :=
  { value := m.value.map Real.arctan
    error := (m.value.zip m.error).map (fun p => p.2 / (1 + p.1 ^ 2))
    style := .PM }

/-- `Measure::atan2` (note the source's doubled squares in the quadrature
numerator, transcribed verbatim). -/
noncomputable def atan2M (m other : Measure) : Measure :=
  { value := (m.value.zip other.value).map (fun p => atan2R p.1 p.2)
    error := ((m.value.zip m.error).zip (other.value.zip other.error)).map (fun p =>
      Real.sqrt ((p.1.1 ^ 2 * p.2.2 ^ 2) ^ 2 + (p.2.1 ^ 2 * p.1.2 ^ 2) ^ 2) /
        (p.1.1 ^ 2 + p.2.1 ^ 2))
    style := .PM }

/-- `Measure::ln`: error `|1/v|·σ`. -/
noncomputable def lnM (m : Measure) : Measure :=
  { value := m.value.map Real.log
    error := (m.value.zip m.error).map (fun p => |1 / p.1| * p.2)
    style := .PM }

/-- `Measure::exp`: value `e^v`, error `|v|·σ` (transcribed verbatim from the
source, which multiplies by `|v|`, not `e^v`). -/
noncomputable def expM (m : Measure) : Measure :=
  { value := m.value.map Real.exp
    error := (m.value.zip m.error).map (fun p => |p.1| * p.2)
    style := .PM }

/-- `Measure::delta`: consecutive differences with quadrature errors,
collected through `FromIterator` (style `PM`). -/
noncomputable def delta (m : Measure) : Measure :=
  let pairs := (m.value.zip m.error).zip ((m.value.zip m.error).drop 1)
  { value := pairs.map (fun p => p.2.1 - p.1.1)
    error := pairs.map (fun p => Real.sqrt (p.1.2 ^ 2 + p.2.2 ^ 2))
    style := .PM }

/-! Arithmetic between two Measures, transcribing `impl_op!` from
src/src/macros.rs.  Each operator first branches on `self.len() == 1`, then on
`other.len() == 1`, then zips equal-length vectors (the Rust `assert_eq!` on
lengths guards the last branch; `List.zipWith` truncates, which is only
reachable past a panic in Rust). -/

/-- `Add<Measure> for Measure` from src/src/macros.rs. -/
noncomputable def add (self other : Measure) : Measure :=
  if self.len = 1 then
    { value := other.value.map (fun oval => self.value.getD 0 0 + oval)
      error := other.error.map (fun oerr =>
        Real.sqrt ((self.error.getD 0 0) ^ 2 + oerr ^ 2))
      style := .PM }
  else if other.len = 1 then
    { value := self.value.map (fun sval => sval + other.value.getD 0 0)
      error := self.error.map (fun serr =>
        Real.sqrt (serr ^ 2 + (other.error.getD 0 0) ^ 2))
      style := .PM }
  else
    { value := List.zipWith (fun sval oval => sval + oval) self.value other.value
      error := List.zipWith (fun serr oerr => Real.sqrt (serr ^ 2 + oerr ^ 2))
        self.error other.error
      style := .PM }

/-- `Sub<Measure> for Measure` from src/src/macros.rs. -/
noncomputable def sub (self other : Measure) : Measure :=
  if self.len = 1 then
    { value := other.value.map (fun oval => self.value.getD 0 0 - oval)
      error := other.error.map (fun oerr =>
        Real.sqrt ((self.error.getD 0 0) ^ 2 + oerr ^ 2))
      style := .PM }
  else if other.len = 1 then
    { value := self.value.map (fun sval => sval - other.value.getD 0 0)
      error := self.error.map (fun serr =>
        Real.sqrt (serr ^ 2 + (other.error.getD 0 0) ^ 2))
      style := .PM }
  else
    { value := List.zipWith (fun sval oval => sval - oval) self.value other.value
      error := List.zipWith (fun serr oerr => Real.sqrt (serr ^ 2 + oerr ^ 2))
        self.error other.error
      style := .PM }

/-- `Mul<Measure> for Measure` from src/src/macros.rs: quadrature of
`(oval·serr)` and `(sval·oerr)`. -/
noncomputable def mul (self other : Measure) : Measure :=
  if self.len = 1 then
    { value := other.value.map (fun oval => self.value.getD 0 0 * oval)
      error := (other.value.zip other.error).map (fun p =>
        Real.sqrt ((p.1 * self.error.getD 0 0) ^ 2 + (p.2 * self.value.getD 0 0) ^ 2))
      style := .PM }
  else if other.len = 1 then
    { value := self.value.map (fun sval => sval * other.value.getD 0 0)
      error := (self.value.zip self.error).map (fun p =>
        Real.sqrt ((other.value.getD 0 0 * p.2) ^ 2 + (p.1 * other.error.getD 0 0) ^ 2))
      style := .PM }
  else
    { value := List.zipWith (fun sval oval => sval * oval) self.value other.value
      error := ((self.value.zip self.error).zip (other.value.zip other.error)).map
        (fun p => Real.sqrt ((p.2.1 * p.1.2) ^ 2 + (p.1.1 * p.2.2) ^ 2))
      style := .PM }

/-- `Div<Measure> for Measure` from src/src/macros.rs, transcribed verbatim:
in every branch the second quadrature term is
`sval / oval² * oerr²` — NOT squared as a whole (the error `oerr` is squared
inside the product instead), exactly as the source writes
`(sval / oval.powi(2) * oerr.powi(2))` without a trailing `.powi(2)`. -/
noncomputable def div (self other : Measure) : Measure :=
  if self.len = 1 then
    { value := other.value.map (fun oval => self.value.getD 0 0 / oval)
      error := (other.value.zip other.error).map (fun p =>
        Real.sqrt ((1 / p.1 * self.error.getD 0 0) ^ 2 +
          (self.value.getD 0 0 / p.1 ^ 2 * p.2 ^ 2)))
      style := .PM }
  else if other.len = 1 then
    { value := self.value.map (fun sval => sval / other.value.getD 0 0)
      error := (self.value.zip self.error).map (fun p =>
        Real.sqrt ((1 / other.value.getD 0 0 * p.2) ^ 2 +
          (p.1 / (other.value.getD 0 0) ^ 2 * (other.error.getD 0 0) ^ 2)))
      style := .PM }
  else
    { value := List.zipWith (fun sval oval => sval / oval) self.value other.value
      error := ((self.value.zip self.error).zip (other.value.zip other.error)).map
        (fun p => Real.sqrt ((1 / p.2.1 * p.1.2) ^ 2 + (p.1.1 / p.2.1 ^ 2 * p.2.2 ^ 2)))
      style := .PM }

/-! Measure–number and number–Measure operators, transcribing
`impl_op_number!` from src/src/macros.rs. -/

/-- `Add<T> for Measure` (measure + number): error untouched. -/
def addNum (self : Measure) (num : ℝ) : Measure :=
  { value := self.value.map (fun val => val + num), error := self.error, style := .PM }

/-- `Sub<T> for Measure` (measure − number): error untouched. -/
def subNum (self : Measure) (num : ℝ) : Measure :=
  { value := self.value.map (fun val => val - num), error := self.error, style := .PM }

/-- `Mul<T> for Measure` (measure × number): error scaled by `|num|`. -/
def mulNum (self : Measure) (num : ℝ) : Measure :=
  { value := self.value.map (fun val => val * num)
    error := self.error.map (fun err => err * |num|)
    style := .PM }

/-- `Div<T> for Measure` (measure ÷ number): error scaled by `1/|num|`. -/
noncomputable def divNum (self : Measure) (num : ℝ) : Measure :=
  { value := self.value.map (fun val => val / num)
    error := self.error.map (fun err => err / |num|)
    style := .PM }

/-- `Add<Measure> for <number type>` (number + measure). -/
def numAdd (num : ℝ) (measure : Measure) : Measure :=
  { value := measure.value.map (fun val => val + num), error := measure.error, style := .PM }

/-- `Sub<Measure> for <number type>` (number − measure): the source computes
`val - num` (value minus the scalar), transcribed verbatim. -/
def numSub (num : ℝ) (measure : Measure) : Measure :=
  { value := measure.value.map (fun val => val - num), error := measure.error, style := .PM }

/-- `Mul<Measure> for <number type>`. -/
def numMul (num : ℝ) (measure : Measure) : Measure :=
  { value := measure.value.map (fun val => val * num)
    error := measure.error.map (fun err => err * |num|)
    style := .PM }

/-- `Div<Measure> for <number type>` (number ÷ measure): derivative-based
error `|num|·σ/v²`. -/
noncomputable def numDiv (num : ℝ) (measure : Measure) : Measure :=
  { value := measure.value.map (fun val => num / val)
    error := (measure.value.zip measure.error).map (fun p => |num| * p.2 / p.1 ^ 2)
    style := .PM }

end Measure

/-! ## Linear and weighted linear fits, src/src/fit.rs, over ℝ -/

/-- A default Measure for unwrapping `Result`s that are always `Ok` in the
modelled paths. -/
def emptyMeasure : Measure := ⟨[], [], .PM⟩

/-! `linear_fit` from src/src/fit.rs, with its local bindings (`sum_x`,
`sum_xy`, `slope`, `sigma_y`, ...) lifted to named definitions so the error
formulas can be stated against them; `linearFit` assembles them exactly as
the source does.  The `assert_eq!` on lengths panics in Rust; the claims
only use equal-length inputs. -/

/-- `sum_x` of `linear_fit`. -/
def sumX (x : List ℝ) : ℝ := x.sum

/-- `sum_xy` of `linear_fit`. -/
def sumXY (x y : List ℝ) : ℝ := (List.zipWith (fun a b => a * b) x y).sum

/-- `sum_x2` of `linear_fit` (`x.powf(2.0)` summed). -/
def sumX2 (x : List ℝ) : ℝ := (x.map (fun a => a ^ 2)).sum

/-- `slope` of `linear_fit`. -/
noncomputable def linSlope (x y : List ℝ) : ℝ :=
  ((x.length : ℝ) * sumXY x y - sumX x * y.sum) /
    ((x.length : ℝ) * sumX2 x - sumX x ^ 2)

/-- `n0` (intercept) of `linear_fit`. -/
noncomputable def linN0 (x y : List ℝ) : ℝ :=
  (y.sum * sumX2 x - sumX x * sumXY x y) /
    ((x.length : ℝ) * sumX2 x - sumX x ^ 2)

/-- `sigma_y` of `linear_fit`: the residual scale
`sqrt(Σ (y − (slope·x + n0))² / (n − 2))`. -/
noncomputable def linSigmaY (x y : List ℝ) : ℝ :=
  Real.sqrt ((List.zipWith
    (fun a b => (b - (linSlope x y * a + linN0 x y)) ^ 2 / ((x.length : ℝ) - 2))
    x y).sum)

/-- `linear_fit` from src/src/fit.rs. -/
noncomputable def linearFit (x y : List ℝ) : Measure × Measure :=
  ((Measure.new [linSlope x y]
      [linSigmaY x y *
        Real.sqrt ((x.length : ℝ) / ((x.length : ℝ) * sumX2 x - sumX x ^ 2))]
      false).toOption.getD emptyMeasure,
   (Measure.new [linN0 x y]
      [linSigmaY x y *
        Real.sqrt (sumX2 x / ((x.length : ℝ) * sumX2 x - sumX x ^ 2))]
      false).toOption.getD emptyMeasure)

/-- `w` of `wlinear_fit`: weights `1/σ_y²`. -/
noncomputable def weights (yerr : List ℝ) : List ℝ := yerr.map (fun e => 1 / e ^ 2)

/-- `sum_w` of `wlinear_fit`. -/
noncomputable def sumW (yerr : List ℝ) : ℝ := (weights yerr).sum

/-- `sum_xw` of `wlinear_fit`. -/
noncomputable def sumXW (x yerr : List ℝ) : ℝ :=
  (List.zipWith (fun a b => a * b) x (weights yerr)).sum

/-- `sum_x2w` of `wlinear_fit`. -/
noncomputable def sumX2W (x yerr : List ℝ) : ℝ :=
  (List.zipWith (fun a b => a ^ 2 * b) x (weights yerr)).sum

/-- `sum_yw` of `wlinear_fit`. -/
noncomputable def sumYW (y yerr : List ℝ) : ℝ :=
  (List.zipWith (fun a b => a * b) y (weights yerr)).sum

/-- `sum_xyw` of `wlinear_fit` (`x * y * w` over the zipped triples). -/
noncomputable def sumXYW (x y yerr : List ℝ) : ℝ :=
  (List.zipWith (fun a p => a * p.2 * p.1) x ((weights yerr).zip y)).sum

/-- `wlinear_fit` from src/src/fit.rs: normal-equation closed form; the
slope/intercept errors are `sqrt(Σw / D)` and `sqrt(Σx²w / D)` with
`D = Σw·Σx²w − (Σxw)²`, with no residual-scale factor. -/
noncomputable def wlinearFit (x y yerr : List ℝ) : Measure × Measure :=
  ((Measure.new
      [(sumW yerr * sumXYW x y yerr - sumXW x yerr * sumYW y yerr) /
        (sumW yerr * sumX2W x yerr - sumXW x yerr ^ 2)]
      [Real.sqrt (sumW yerr / (sumW yerr * sumX2W x yerr - sumXW x yerr ^ 2))]
      false).toOption.getD emptyMeasure,
   (Measure.new
      [(sumYW y yerr * sumX2W x yerr - sumXW x yerr * sumXYW x y yerr) /
        (sumW yerr * sumX2W x yerr - sumXW x yerr ^ 2)]
      [Real.sqrt (sumX2W x yerr / (sumW yerr * sumX2W x yerr - sumXW x yerr ^ 2))]
      false).toOption.getD emptyMeasure)

/-! ## Nelder-Mead simplex search, src/src/fit.rs, over ℚ

The search itself uses only field arithmetic and comparisons, so it is
embedded over ℚ and stays executable.  `max_iterations: Option<usize>` is
modelled by an explicit iteration budget (`Some max` in Rust); with `None`
the Rust loop is the unbounded limit of the same recursion. -/

/-- Stable insertion of index `i` into an index list already sorted by the
associated values: `i` goes after every index with a value `≤` its own.
Together with `sortIdx` this models Rust's stable
`indices.sort_by(|a, b| values[a].partial_cmp(&values[b]))`. -/
def insertIdxByVal (vals : List ℚ) (i : ℕ) : List ℕ → List ℕ
  | [] => [i]
  | j :: js =>
    if vals.getD i 0 < vals.getD j 0 then i :: j :: js
    else j :: insertIdxByVal vals i js

/-- Stable ascending index sort by values (insertion sort, which produces the
same permutation as any stable sort). -/
def sortIdx (vals : List ℚ) : List ℕ :=
  (List.range vals.length).foldl (fun acc i => insertIdxByVal vals i acc) []

/-- Transcribes `generate_initial_simplex` from src/src/fit.rs: the initial
point, plus one copy per coordinate with that coordinate shifted by `scale`. -/
def generateInitialSimplex (initialPoint : List ℚ) (scale : ℚ) : List (List ℚ) :=
  initialPoint ::
    (List.range initialPoint.length).map
      (fun i => initialPoint.set i (initialPoint.getD i 0 + scale))

/-- State of the simplex search: the `n+1` candidate points and their
objective values, exactly the two mutable vectors of `nelder_mead`. -/
structure NMState where
  simplex : List (List ℚ)
  values : List ℚ
deriving DecidableEq, Repr

/-- One iteration of the `nelder_mead` loop body from src/src/fit.rs,
transcribed branch for branch:
sort indices by value; centroid of the best `n`; reflection `2c - s`;
the first branch tests `reflection_value < values[indices[0]] &&
reflection_value >= values[indices[n-1]]` (as in the source); the expansion
point is `centroid[0] + 2*(r - c)` componentwise (as in the source — the
first centroid coordinate, not the matching one); contraction `(s + c)/2`;
otherwise shrink every non-best vertex halfway toward the best. -/
def nmStep (f : List ℚ → ℚ) (n : ℕ) (st : NMState) : NMState :=
  let indices := sortIdx st.values
  let centroid0 : List ℚ := List.replicate n 0
  let centroid :=
    ((indices.take n).foldl
      (fun c i => List.zipWith (fun a b => a + b) c (st.simplex.getD i [])) centroid0).map
      (fun c => c / (n : ℚ))
  let worstIdx := indices.getD n 0
  let bestIdx := indices.getD 0 0
  let secIdx := indices.getD (n - 1) 0
  let reflection := List.zipWith (fun c s => 2 * c - s) centroid (st.simplex.getD worstIdx [])
  let reflectionValue := f reflection
  if reflectionValue < st.values.getD bestIdx 0 ∧
      st.values.getD secIdx 0 ≤ reflectionValue then
    ⟨st.simplex.set worstIdx reflection, st.values.set worstIdx reflectionValue⟩
  else if reflectionValue < st.values.getD secIdx 0 then
    let expansion := List.zipWith (fun c r => centroid.getD 0 0 + 2 * (r - c))
      centroid reflection
    let expansionValue := f expansion
    if expansionValue < reflectionValue then
      ⟨st.simplex.set worstIdx expansion, st.values.set worstIdx expansionValue⟩
    else
      ⟨st.simplex.set worstIdx reflection, st.values.set worstIdx reflectionValue⟩
  else
    let contraction := List.zipWith (fun c s => 1/2 * (s + c))
      centroid (st.simplex.getD worstIdx [])
    let contractionValue := f contraction
    if contractionValue < st.values.getD worstIdx 0 then
      ⟨st.simplex.set worstIdx contraction, st.values.set worstIdx contractionValue⟩
    else
      (List.range n).foldl
        (fun acc t =>
          let i := indices.getD (t + 1) 0
          let newPt := List.zipWith (fun s0 si => 1/2 * (s0 + si))
            (acc.simplex.getD bestIdx []) (acc.simplex.getD i [])
          ⟨acc.simplex.set i newPt, acc.values.set i (f newPt)⟩)
        st

/-- The `nelder_mead` loop with the convergence test of the source:
after the body, stop when `|values[indices[0]] - values[indices[n]]| < tol`
(with `indices` as sorted at the start of the iteration), or when the
iteration budget is exhausted. -/
def nmLoop (f : List ℚ → ℚ) (n : ℕ) (tol : ℚ) : ℕ → NMState → NMState
  | 0, st => st
  | fuel + 1, st =>
    let indices := sortIdx st.values
    let stNext := nmStep f n st
    if |stNext.values.getD (indices.getD 0 0) 0 -
        stNext.values.getD (indices.getD n 0) 0| < tol then
      stNext
    else
      nmLoop f n tol fuel stNext

/-- The final state of `nelder_mead` (simplex and values when the loop
stops), for `max_iterations = Some maxIterations`. -/
def nelderMeadStateQ (f : List ℚ → ℚ) (initialPoint : List ℚ)
    (maxIterations : ℕ) (tol scale : ℚ) : NMState :=
  let initialSimplex := generateInitialSimplex initialPoint scale
  nmLoop f initialPoint.length tol maxIterations
    ⟨initialSimplex, initialSimplex.map f⟩

/-- Transcribes the return of `nelder_mead` from src/src/fit.rs:
`simplex[0].clone()` — the vertex stored at index 0 of the (never reordered)
simplex vector. -/
def nelderMeadQ (f : List ℚ → ℚ) (initialPoint : List ℚ)
    (maxIterations : ℕ) (tol scale : ℚ) : List ℚ :=
  (nelderMeadStateQ f initialPoint maxIterations tol scale).simplex.getD 0 []

/-! ## Helper lemmas: evaluating floors, ceilings, `Int.log`, and the
rounding primitives on explicit rationals -/

theorem ceil_eq_of {q : ℚ} {z : ℤ} (h1 : (z : ℚ) - 1 < q) (h2 : q ≤ (z : ℚ)) :
    ⌈q⌉ = z :=
  Int.ceil_eq_iff.mpr ⟨h1, h2⟩

theorem floor_eq_of {q : ℚ} {z : ℤ} (h1 : (z : ℚ) ≤ q) (h2 : q < (z : ℚ) + 1) :
    ⌊q⌋ = z :=
  Int.floor_eq_iff.mpr ⟨h1, h2⟩

theorem ten_zpow_pos (z : ℤ) : (0 : ℚ) < (10 : ℚ) ^ z :=
  zpow_pos (by norm_num) z

theorem ten_zpow_ne (z : ℤ) : ((10 : ℚ) ^ z) ≠ 0 :=
  ne_of_gt (ten_zpow_pos z)

theorem int_log10_eq {r : ℚ} {z : ℤ} (h1 : (10 : ℚ) ^ z ≤ r)
    (h2 : r < (10 : ℚ) ^ (z + 1)) : Int.log 10 r = z := by
  have hb : (1 : ℕ) < 10 := by norm_num
  have hr : 0 < r := lt_of_lt_of_le (ten_zpow_pos z) h1
  have hcast : ((10 : ℕ) : ℚ) = (10 : ℚ) := by norm_num
  have hle : z ≤ Int.log 10 r := by
    rw [← Int.zpow_le_iff_le_log hb hr, hcast]
    exact h1
  have hlt : Int.log 10 r < z + 1 := by
    rw [← Int.lt_zpow_iff_log_lt hb hr, hcast]
    exact h2
  omega

theorem int_log10_zpow (z : ℤ) : Int.log 10 ((10 : ℚ) ^ z) = z := by
  have := Int.log_zpow (R := ℚ) (b := 10) (by norm_num) z
  rwa [show ((10 : ℕ) : ℚ) = (10 : ℚ) by norm_num] at this

theorem roundQ_eq (v : ℚ) (d : ℤ) :
    roundQ v d = (⌈v * (10 : ℚ) ^ d - 1/2⌉ : ℚ) / (10 : ℚ) ^ d := rfl

/-- `roundQ` fixes every rational already on the grid of step `10^(-d)`. -/
theorem roundQ_fix {v : ℚ} {d : ℤ} (m : ℤ) (hm : v = (m : ℚ) / (10 : ℚ) ^ d) :
    roundQ v d = v := by
  have hmul : v * (10 : ℚ) ^ d = (m : ℚ) := by
    rw [hm, div_mul_cancel₀ _ (ten_zpow_ne d)]
  rw [roundQ_eq, hmul,
    show ⌈(m : ℚ) - 1/2⌉ = m from ceil_eq_of (by linarith) (by linarith), ← hm]

/-- `roundQ` at a finer decimal position also fixes grid rationals. -/
theorem roundQ_fix_le {v : ℚ} {d d' : ℤ} (m : ℤ)
    (hm : v = (m : ℚ) / (10 : ℚ) ^ d) (hdd : d ≤ d') : roundQ v d' = v := by
  refine roundQ_fix (m * 10 ^ (d' - d).toNat) ?_
  have ht : ((d' - d).toNat : ℤ) = d' - d := Int.toNat_of_nonneg (by omega)
  have hzp : ((10 : ℚ) ^ (d' - d).toNat) = (10 : ℚ) ^ (d' - d : ℤ) := by
    rw [← zpow_natCast, ht]
  have hsplit : (10 : ℚ) ^ d' = (10 : ℚ) ^ d * (10 : ℚ) ^ (d' - d : ℤ) := by
    rw [← zpow_add₀ (by norm_num : (10 : ℚ) ≠ 0)]
    ring_nf
  rw [hm]
  push_cast
  rw [hzp, hsplit]
  field_simp
  ring

theorem mul_zpow_neg_eq_div (c : ℚ) (K : ℤ) :
    c * (10 : ℚ) ^ (-K) = c / (10 : ℚ) ^ K := by
  rw [zpow_neg, div_eq_mul_inv]

theorem truncQ_eq_floor {v : ℚ} {d : ℤ} (hv : 0 ≤ v * (10 : ℚ) ^ d) :
    truncQ v d = (⌊v * (10 : ℚ) ^ d⌋ : ℚ) / (10 : ℚ) ^ d := by
  simp only [truncQ, ztrunc, if_pos hv]

/-- Unfolds `aproxQ` in the branch where the leading significant figure
is bumped. -/
theorem aproxQ_of_cond (v e : ℚ) (he0 : e ≠ 0)
    (hcond : 0 < truncQ e (-(Int.log 10 |e|)) ∧
      truncQ e (-(Int.log 10 |e|)) =
        (10 : ℚ) ^ (Int.log 10 (truncQ e (-(Int.log 10 |e|)))) ∧
      roundQ e (-(Int.log 10 |e|)) = (10 : ℚ) ^ (-(-(Int.log 10 |e|)))) :
    aproxQ v e =
      (roundQ v (-(Int.log 10 |e|) + 1), roundQ e (-(Int.log 10 |e|) + 1)) := by
  simp only [aproxQ, if_neg he0, if_pos hcond]

/-- Unfolds `aproxQ` in the branch without the bump. -/
theorem aproxQ_of_not_cond (v e : ℚ) (he0 : e ≠ 0)
    (hcond : ¬(0 < truncQ e (-(Int.log 10 |e|)) ∧
      truncQ e (-(Int.log 10 |e|)) =
        (10 : ℚ) ^ (Int.log 10 (truncQ e (-(Int.log 10 |e|)))) ∧
      roundQ e (-(Int.log 10 |e|)) = (10 : ℚ) ^ (-(-(Int.log 10 |e|))))) :
    aproxQ v e = (roundQ v (-(Int.log 10 |e|)), roundQ e (-(Int.log 10 |e|))) := by
  simp only [aproxQ, if_neg he0, if_neg hcond]

/-- A pair `(v, e)` with `e = c·10^(-K)` for an integer `1 ≤ c ≤ 15` and `v`
on the grid of step `10^(-K)` is a fixed point of `aproxQ`.  Every output of
`aproxQ` for a positive error has this shape, which drives the idempotence
theorem. -/
theorem aproxQ_fix {e : ℚ} (v : ℚ) (K c m : ℤ) (hc1 : 1 ≤ c) (hc2 : c ≤ 15)
    (he : e = (c : ℚ) * (10 : ℚ) ^ (-K)) (hv : v = (m : ℚ) / (10 : ℚ) ^ K) :
    aproxQ v e = (v, e) := by
  have hcq1 : (1 : ℚ) ≤ (c : ℚ) := by exact_mod_cast hc1
  have hcq2 : (c : ℚ) ≤ 15 := by exact_mod_cast hc2
  have hcpos : (0 : ℚ) < (c : ℚ) := lt_of_lt_of_le one_pos hcq1
  have hpos : 0 < e := by
    rw [he]; exact mul_pos hcpos (ten_zpow_pos _)
  have he0 : e ≠ 0 := ne_of_gt hpos
  have habs : |e| = e := abs_of_pos hpos
  have hten : (10 : ℚ) ≠ 0 := by norm_num
  have hmulK : e * (10 : ℚ) ^ K = (c : ℚ) := by
    rw [he, mul_assoc, ← zpow_add₀ hten]
    simp
  have hediv : e = (c : ℚ) / (10 : ℚ) ^ K := by
    rw [he, mul_zpow_neg_eq_div]
  rcases le_or_lt c 9 with hc9 | hc10
  · -- c ∈ [1, 9]: the error's significant position is K
    have hcq9 : (c : ℚ) ≤ 9 := by exact_mod_cast hc9
    have hlog : Int.log 10 e = -K := by
      apply int_log10_eq
      · rw [he]
        nlinarith [ten_zpow_pos (-K)]
      · rw [he, zpow_add₀ hten (-K) 1, zpow_one]
        nlinarith [ten_zpow_pos (-K)]
    have htr : truncQ e K = e := by
      rw [truncQ_eq_floor (by rw [hmulK]; linarith), hmulK, Int.floor_intCast, ← hediv]
    have hrK : roundQ e K = e := by
      rw [roundQ_eq, hmulK,
        show ⌈(c : ℚ) - 1/2⌉ = c from ceil_eq_of (by linarith) (by linarith), ← hediv]
    rcases eq_or_lt_of_le hc1 with hc1e | hc2le
    · -- c = 1: e = 10^(-K), the bump branch fires and rounds at K+1
      have hc1e' : (c : ℚ) = 1 := by exact_mod_cast hc1e.symm
      have hepow : e = (10 : ℚ) ^ (-K) := by rw [he, hc1e', one_mul]
      have hcond : 0 < truncQ e (-(Int.log 10 |e|)) ∧
          truncQ e (-(Int.log 10 |e|)) =
            (10 : ℚ) ^ (Int.log 10 (truncQ e (-(Int.log 10 |e|)))) ∧
          roundQ e (-(Int.log 10 |e|)) = (10 : ℚ) ^ (-(-(Int.log 10 |e|))) := by
        rw [habs, hlog, neg_neg, htr]
        exact ⟨hpos, by rw [hepow, int_log10_zpow], by rw [hrK, hepow]⟩
      rw [aproxQ_of_cond v e he0 hcond, habs, hlog, neg_neg,
        roundQ_fix_le m hv (show K ≤ K + 1 by omega),
        roundQ_fix_le c hediv (show K ≤ K + 1 by omega)]
    · -- c ∈ [2, 9]: no bump, rounding at K is the identity
      have hcq2le : (2 : ℚ) ≤ (c : ℚ) := by exact_mod_cast hc2le
      have hcond : ¬(0 < truncQ e (-(Int.log 10 |e|)) ∧
          truncQ e (-(Int.log 10 |e|)) =
            (10 : ℚ) ^ (Int.log 10 (truncQ e (-(Int.log 10 |e|)))) ∧
          roundQ e (-(Int.log 10 |e|)) = (10 : ℚ) ^ (-(-(Int.log 10 |e|)))) := by
        rw [habs, hlog, neg_neg, htr, hlog]
        rintro ⟨-, hpow, -⟩
        rw [he] at hpow
        have hc1' : (c : ℚ) = 1 :=
          mul_right_cancel₀ (ten_zpow_ne (-K)) (by rw [one_mul]; exact hpow)
        linarith
      rw [aproxQ_of_not_cond v e he0 hcond, habs, hlog, neg_neg,
        roundQ_fix m hv, hrK]
  · -- c ∈ [10, 15]: the significant position is K-1 and the bump fires
    have hcq10 : (10 : ℚ) ≤ (c : ℚ) := by exact_mod_cast hc10
    have hlog : Int.log 10 e = -(K - 1) := by
      apply int_log10_eq
      · rw [he, show (-(K - 1) : ℤ) = -K + 1 from by ring,
          zpow_add₀ hten (-K) 1, zpow_one]
        nlinarith [ten_zpow_pos (-K)]
      · rw [he, show (-(K - 1) + 1 : ℤ) = -K + 2 from by ring,
          zpow_add₀ hten (-K) 2,
          show ((10 : ℚ) ^ (2 : ℤ)) = 100 from by norm_num]
        nlinarith [ten_zpow_pos (-K)]
    have hmulK1 : e * (10 : ℚ) ^ (K - 1) = (c : ℚ) / 10 := by
      rw [he, mul_assoc, ← zpow_add₀ hten,
        show (-K + (K - 1) : ℤ) = -1 from by ring]
      rw [zpow_neg, zpow_one, div_eq_mul_inv]
    have hone : ((1 : ℤ) : ℚ) / (10 : ℚ) ^ (K - 1) = (10 : ℚ) ^ (-(K - 1)) := by
      push_cast
      rw [zpow_neg, one_div]
    have htr : truncQ e (K - 1) = (10 : ℚ) ^ (-(K - 1)) := by
      rw [truncQ_eq_floor (by rw [hmulK1]; linarith), hmulK1,
        show ⌊(c : ℚ) / 10⌋ = 1 from floor_eq_of (by linarith) (by linarith), hone]
    have hround : roundQ e (K - 1) = (10 : ℚ) ^ (-(K - 1)) := by
      rw [roundQ_eq, hmulK1,
        show ⌈(c : ℚ) / 10 - 1/2⌉ = 1 from ceil_eq_of (by linarith) (by linarith), hone]
    have hcond : 0 < truncQ e (-(Int.log 10 |e|)) ∧
        truncQ e (-(Int.log 10 |e|)) =
          (10 : ℚ) ^ (Int.log 10 (truncQ e (-(Int.log 10 |e|)))) ∧
        roundQ e (-(Int.log 10 |e|)) = (10 : ℚ) ^ (-(-(Int.log 10 |e|))) := by
      rw [habs, hlog, neg_neg, htr]
      exact ⟨ten_zpow_pos _, by rw [int_log10_zpow], by rw [hround]⟩
    rw [aproxQ_of_cond v e he0 hcond, habs, hlog, neg_neg,
      roundQ_fix_le m hv (show K ≤ K - 1 + 1 by omega),
      roundQ_fix_le c hediv (show K ≤ K - 1 + 1 by omega)]

/-- Scalar idempotence of the significant-figure approximation, for
non-negative errors: a second application of `aproxQ` changes nothing. -/
theorem aproxQ_idem (v e : ℚ) (he : 0 ≤ e) :
    aproxQ (aproxQ v e).1 (aproxQ v e).2 = aproxQ v e := by
  rcases eq_or_lt_of_le he with he0 | hpos
  · have h0 : aproxQ v e = (v, e) := by rw [← he0]; simp [aproxQ]
    rw [h0]
    exact h0
  · have he0 : e ≠ 0 := ne_of_gt hpos
    have habs : |e| = e := abs_of_pos hpos
    have hten : (10 : ℚ) ≠ 0 := by norm_num
    have hb : (1 : ℕ) < 10 := by norm_num
    have hcast : ((10 : ℕ) : ℚ) = (10 : ℚ) := by norm_num
    obtain ⟨L, hL⟩ : ∃ L, Int.log 10 e = L := ⟨_, rfl⟩
    have hlow : (10 : ℚ) ^ L ≤ e := by
      have h := Int.zpow_log_le_self (b := 10) hb hpos
      rwa [hcast, hL] at h
    have hhigh : e < (10 : ℚ) ^ (L + 1) := by
      have h := Int.lt_zpow_succ_log_self (b := 10) hb e
      rwa [hcast, hL] at h
    have ha1 : 1 ≤ e * (10 : ℚ) ^ (-L) := by
      have h := mul_le_mul_of_nonneg_right hlow (le_of_lt (ten_zpow_pos (-L)))
      rwa [← zpow_add₀ hten, show L + -L = (0 : ℤ) from by omega, zpow_zero] at h
    have ha2 : e * (10 : ℚ) ^ (-L) < 10 := by
      have h := mul_lt_mul_of_pos_right hhigh (ten_zpow_pos (-L))
      rwa [← zpow_add₀ hten, show L + 1 + -L = (1 : ℤ) from by omega, zpow_one] at h
    by_cases hcond : 0 < truncQ e (-(Int.log 10 |e|)) ∧
        truncQ e (-(Int.log 10 |e|)) =
          (10 : ℚ) ^ (Int.log 10 (truncQ e (-(Int.log 10 |e|)))) ∧
        roundQ e (-(Int.log 10 |e|)) = (10 : ℚ) ^ (-(-(Int.log 10 |e|)))
    · -- bump branch: the output error is c·10^(L-1) with c ∈ [10, 15]
      obtain ⟨-, -, hr3⟩ := hcond.imp id id
      rw [habs, hL, neg_neg] at hr3
      have hceil1 : ⌈e * (10 : ℚ) ^ (-L) - 1/2⌉ = 1 := by
        rw [roundQ_eq] at hr3
        have h3 := congrArg (fun x => x * (10 : ℚ) ^ (-L)) hr3
        simp only [div_mul_cancel₀ _ (ten_zpow_ne (-L))] at h3
        rw [← zpow_add₀ hten, show L + -L = (0 : ℤ) from by omega, zpow_zero] at h3
        exact_mod_cast h3
      have ha32 : e * (10 : ℚ) ^ (-L) ≤ 3/2 := by
        have h := Int.le_ceil (e * (10 : ℚ) ^ (-L) - 1/2)
        rw [hceil1] at h
        push_cast at h
        linarith
      have ha10 : e * (10 : ℚ) ^ (-L + 1) = e * (10 : ℚ) ^ (-L) * 10 := by
        rw [zpow_add₀ hten (-L) 1, zpow_one, mul_assoc]
      have hclow : (10 : ℤ) ≤ ⌈e * (10 : ℚ) ^ (-L + 1) - 1/2⌉ := by
        have h := Int.le_ceil (e * (10 : ℚ) ^ (-L + 1) - 1/2)
        have h9 : (9 : ℤ) < ⌈e * (10 : ℚ) ^ (-L + 1) - 1/2⌉ := by
          have h9q : (9 : ℚ) < (⌈e * (10 : ℚ) ^ (-L + 1) - 1/2⌉ : ℚ) := by
            linarith [h, ha10, ha1]
          exact_mod_cast h9q
        omega
      have hchigh : ⌈e * (10 : ℚ) ^ (-L + 1) - 1/2⌉ ≤ 15 := by
        have h := Int.ceil_lt_add_one (e * (10 : ℚ) ^ (-L + 1) - 1/2)
        have h16 : (⌈e * (10 : ℚ) ^ (-L + 1) - 1/2⌉ : ℚ) < 16 := by
          linarith [h, ha10, ha32]
        have h16' : ⌈e * (10 : ℚ) ^ (-L + 1) - 1/2⌉ < 16 := by exact_mod_cast h16
        omega
      have heform : roundQ e (-L + 1) =
          ((⌈e * (10 : ℚ) ^ (-L + 1) - 1/2⌉ : ℤ) : ℚ) * (10 : ℚ) ^ (-(-L + 1)) := by
        rw [roundQ_eq, mul_zpow_neg_eq_div]
      have hvform : roundQ v (-L + 1) =
          ((⌈v * (10 : ℚ) ^ (-L + 1) - 1/2⌉ : ℤ) : ℚ) / (10 : ℚ) ^ (-L + 1) :=
        roundQ_eq v (-L + 1)
      rw [aproxQ_of_cond v e he0 hcond, habs, hL]
      exact aproxQ_fix _ (-L + 1) ⌈e * (10 : ℚ) ^ (-L + 1) - 1/2⌉
        ⌈v * (10 : ℚ) ^ (-L + 1) - 1/2⌉ (by omega) hchigh heform hvform
    · -- no-bump branch: the output error is c·10^L with c ∈ [1, 10]
      have hclow : (1 : ℤ) ≤ ⌈e * (10 : ℚ) ^ (-L) - 1/2⌉ := by
        have h := Int.le_ceil (e * (10 : ℚ) ^ (-L) - 1/2)
        have h0 : (0 : ℤ) < ⌈e * (10 : ℚ) ^ (-L) - 1/2⌉ := by
          have : (0 : ℚ) < (⌈e * (10 : ℚ) ^ (-L) - 1/2⌉ : ℚ) := by nlinarith
          exact_mod_cast this
        omega
      have hchigh : ⌈e * (10 : ℚ) ^ (-L) - 1/2⌉ ≤ 15 := by
        have h := Int.ceil_lt_add_one (e * (10 : ℚ) ^ (-L) - 1/2)
        have h11 : (⌈e * (10 : ℚ) ^ (-L) - 1/2⌉ : ℚ) < 11 := by nlinarith
        have : ⌈e * (10 : ℚ) ^ (-L) - 1/2⌉ < 11 := by exact_mod_cast h11
        omega
      have heform : roundQ e (-L) =
          ((⌈e * (10 : ℚ) ^ (-L) - 1/2⌉ : ℤ) : ℚ) * (10 : ℚ) ^ (-(-L)) := by
        rw [roundQ_eq,
          mul_zpow_neg_eq_div ((⌈e * (10 : ℚ) ^ (-L) - 1/2⌉ : ℤ) : ℚ) (-L)]
      have hvform : roundQ v (-L) =
          ((⌈v * (10 : ℚ) ^ (-L) - 1/2⌉ : ℤ) : ℚ) / (10 : ℚ) ^ (-L) :=
        roundQ_eq v (-L)
      rw [aproxQ_of_not_cond v e he0 hcond, habs, hL]
      exact aproxQ_fix _ (-L) ⌈e * (10 : ℚ) ^ (-L) - 1/2⌉
        ⌈v * (10 : ℚ) ^ (-L) - 1/2⌉ hclow hchigh heform hvform

theorem truncQ_eq_ceil {v : ℚ} {d : ℤ} (hv : ¬0 ≤ v * (10 : ℚ) ^ d) :
    truncQ v d = (⌈v * (10 : ℚ) ^ d⌉ : ℚ) / (10 : ℚ) ^ d := by
  simp only [truncQ, ztrunc, if_neg hv]

/-- Evaluation helper: `roundQ v d = c / 10^d` once `v·10^d` and the ceiling
are computed. -/
theorem roundQ_concrete {v a : ℚ} {d c : ℤ} (ha : v * (10 : ℚ) ^ d = a)
    (hc : ⌈a - 1/2⌉ = c) : roundQ v d = (c : ℚ) / (10 : ℚ) ^ d := by
  rw [roundQ_eq, ha, hc]

/-! ## Claim C5: idempotence of `Measure::aprox` -/

/-- C5 counterexample: the claim "for every Measure m,
`m.aprox().aprox() == m.aprox()`" fails at the Measure `0.14 ± (-0.96)`
(the constructor accepts negative errors).  The first application yields
`0.1 ± (-1.0)`; on the second pass the error `-1.0` has `Int.log 10 |e| = 0`,
so the value `0.1` is rounded at 0 decimals to `0.0`. -/
theorem C5_aprox_not_idempotent_on_negative_error :
    (MeasureQ.mk [7/50] [-24/25] .PM).aprox.aprox ≠
      (MeasureQ.mk [7/50] [-24/25] .PM).aprox := by
  have hlog1 : Int.log 10 |(-24/25 : ℚ)| = -1 := by
    rw [show |(-24/25 : ℚ)| = 24/25 from by norm_num]
    exact int_log10_eq (by norm_num) (by norm_num)
  have htr1 : truncQ (-24/25 : ℚ) 1 = -9/10 := by
    rw [truncQ_eq_ceil (by norm_num),
      show ((-24/25 : ℚ) * (10 : ℚ) ^ (1 : ℤ)) = -48/5 from by norm_num,
      show ⌈(-48/5 : ℚ)⌉ = -9 from ceil_eq_of (by norm_num) (by norm_num)]
    norm_num
  have hr1 : roundQ (7/50 : ℚ) 1 = 1/10 := by
    rw [roundQ_concrete (show (7/50 : ℚ) * (10 : ℚ) ^ (1 : ℤ) = 7/5 from by norm_num)
      (show ⌈(7/5 : ℚ) - 1/2⌉ = 1 from ceil_eq_of (by norm_num) (by norm_num))]
    norm_num
  have hr2 : roundQ (-24/25 : ℚ) 1 = -1 := by
    rw [roundQ_concrete (show ((-24/25 : ℚ)) * (10 : ℚ) ^ (1 : ℤ) = -48/5 from by norm_num)
      (show ⌈(-48/5 : ℚ) - 1/2⌉ = -10 from ceil_eq_of (by norm_num) (by norm_num))]
    norm_num
  have hcond1 : ¬(0 < truncQ (-24/25 : ℚ) (-(Int.log 10 |(-24/25 : ℚ)|)) ∧
      truncQ (-24/25 : ℚ) (-(Int.log 10 |(-24/25 : ℚ)|)) =
        (10 : ℚ) ^ (Int.log 10 (truncQ (-24/25 : ℚ) (-(Int.log 10 |(-24/25 : ℚ)|)))) ∧
      roundQ (-24/25 : ℚ) (-(Int.log 10 |(-24/25 : ℚ)|)) =
        (10 : ℚ) ^ (-(-(Int.log 10 |(-24/25 : ℚ)|)))) := by
    rw [hlog1, show (-(-1 : ℤ)) = 1 from by norm_num, htr1]
    rintro ⟨h, -, -⟩
    norm_num at h
  have hap1 : aproxQ (7/50) (-24/25) = (1/10, -1) := by
    rw [aproxQ_of_not_cond _ _ (by norm_num) hcond1, hlog1,
      show (-(-1 : ℤ)) = 1 from by norm_num, hr1, hr2]
  have hlog2 : Int.log 10 |(-1 : ℚ)| = 0 := by
    rw [show |(-1 : ℚ)| = 1 from by norm_num]
    exact int_log10_eq (by norm_num) (by norm_num)
  have htr2 : truncQ (-1 : ℚ) 0 = -1 := by
    rw [truncQ_eq_ceil (by norm_num),
      show ((-1 : ℚ) * (10 : ℚ) ^ (0 : ℤ)) = -1 from by norm_num,
      show ⌈(-1 : ℚ)⌉ = -1 from ceil_eq_of (by norm_num) (by norm_num)]
    norm_num
  have hr3 : roundQ (1/10 : ℚ) 0 = 0 := by
    rw [roundQ_concrete (show (1/10 : ℚ) * (10 : ℚ) ^ (0 : ℤ) = 1/10 from by norm_num)
      (show ⌈(1/10 : ℚ) - 1/2⌉ = 0 from ceil_eq_of (by norm_num) (by norm_num))]
    norm_num
  have hr4 : roundQ (-1 : ℚ) 0 = -1 := by
    rw [roundQ_concrete (show (-1 : ℚ) * (10 : ℚ) ^ (0 : ℤ) = -1 from by norm_num)
      (show ⌈(-1 : ℚ) - 1/2⌉ = -1 from ceil_eq_of (by norm_num) (by norm_num))]
    norm_num
  have hcond2 : ¬(0 < truncQ (-1 : ℚ) (-(Int.log 10 |(-1 : ℚ)|)) ∧
      truncQ (-1 : ℚ) (-(Int.log 10 |(-1 : ℚ)|)) =
        (10 : ℚ) ^ (Int.log 10 (truncQ (-1 : ℚ) (-(Int.log 10 |(-1 : ℚ)|)))) ∧
      roundQ (-1 : ℚ) (-(Int.log 10 |(-1 : ℚ)|)) =
        (10 : ℚ) ^ (-(-(Int.log 10 |(-1 : ℚ)|)))) := by
    rw [hlog2, show (-(0 : ℤ)) = 0 from by norm_num, htr2]
    rintro ⟨h, -, -⟩
    norm_num at h
  have hap2 : aproxQ (1/10) (-1) = (0, -1) := by
    rw [aproxQ_of_not_cond _ _ (by norm_num) hcond2, hlog2,
      show (-(0 : ℤ)) = 0 from by norm_num, hr3, hr4]
  have hm1 : (MeasureQ.mk [7/50] [-24/25] .PM).aprox = MeasureQ.mk [1/10] [-1] .PM := by
    simp [MeasureQ.aprox, hap1]
  have hap2i : aproxQ (10⁻¹ : ℚ) (-1) = (0, -1) := by
    rw [show ((10 : ℚ)⁻¹) = 1/10 from by norm_num]
    exact hap2
  have hm2 : (MeasureQ.mk [1/10] [-1] .PM).aprox = MeasureQ.mk [0] [-1] .PM := by
    simp [MeasureQ.aprox, hap2i]
  rw [hm1, hm2]
  intro hcontra
  have hv := congrArg MeasureQ.value hcontra
  simp only [List.cons.injEq] at hv
  norm_num at hv

/-- C5 (amended): `measure.aprox().aprox() == measure.aprox()` holds for every
Measure whose error entries are all non-negative (as stated, the claim fails
for negative errors; errors are non-negative for every physically meaningful
Measure).  After the first pass each pair sits at `(m·10^(-K), c·10^(-K))`
with `c ∈ [1, 15]`, which the second pass fixes. -/
theorem C5_aprox_idempotent_on_nonneg_errors (m : MeasureQ)
    (he : ∀ e ∈ m.error, 0 ≤ e) : m.aprox.aprox = m.aprox := by
  unfold MeasureQ.aprox
  simp only [List.zip_map', Prod.mk.eta, List.map_map, Function.comp]
  congr 1
  · refine List.map_congr_left ?_
    intro a ha
    simp only [Function.comp_apply]
    rw [aproxQ_idem a.1 a.2 (he a.2 (List.of_mem_zip ha).2)]
  · refine List.map_congr_left ?_
    intro a ha
    simp only [Function.comp_apply]
    rw [aproxQ_idem a.1 a.2 (he a.2 (List.of_mem_zip ha).2)]

/-- Witness for C5: the amended idempotence applied to the concrete Measure
`14.14 ± 0.15`. -/
theorem C5_witness :
    (∀ e ∈ (MeasureQ.mk [707/50] [3/20] .PM).error, 0 ≤ e) ∧
      (MeasureQ.mk [707/50] [3/20] .PM).aprox.aprox =
        (MeasureQ.mk [707/50] [3/20] .PM).aprox := by
  have h : ∀ e ∈ (MeasureQ.mk [707/50] [3/20] .PM).error, 0 ≤ e := by
    intro e he
    rw [show (MeasureQ.mk [707/50] [3/20] .PM).error = [3/20] from rfl,
      List.mem_singleton] at he
    rw [he]
    norm_num
  exact ⟨h, C5_aprox_idempotent_on_nonneg_errors _ h⟩

/-! ## Claim C9: the concrete rounding-policy vectors -/

/-- C9: the rounding policy reproduces the spec's concrete vectors:
`round(8.7,0)=9`, `round(-1.5,0)=-2`, `round(1.9256,2)=1.93`,
`approximate(10.14,0.22)=(10.1,0.2)`, `approximate(10.14,0.151)=(10.1,0.2)`,
`approximate(10.05,0.1)=(10.05,0.1)`, under the tie policy
`ceil(x·10^d − 0.5)/10^d`. -/
theorem C9_rounding_policy_vectors :
    roundQ (87/10) 0 = 9 ∧ roundQ (-3/2) 0 = -2 ∧
    roundQ (19256/10000) 2 = 193/100 ∧
    aproxQ (1014/100) (22/100) = (101/10, 2/10) ∧
    aproxQ (1014/100) (151/1000) = (101/10, 2/10) ∧
    aproxQ (1005/100) (1/10) = (1005/100, 1/10) := by
  have hround1 : roundQ (87/10 : ℚ) 0 = 9 := by
    rw [roundQ_concrete (show (87/10 : ℚ) * (10 : ℚ) ^ (0 : ℤ) = 87/10 from by norm_num)
      (show ⌈(87/10 : ℚ) - 1/2⌉ = 9 from ceil_eq_of (by norm_num) (by norm_num))]
    norm_num
  have hround2 : roundQ (-3/2 : ℚ) 0 = -2 := by
    rw [roundQ_concrete (show (-3/2 : ℚ) * (10 : ℚ) ^ (0 : ℤ) = -3/2 from by norm_num)
      (show ⌈(-3/2 : ℚ) - 1/2⌉ = -2 from ceil_eq_of (by norm_num) (by norm_num))]
    norm_num
  have hround3 : roundQ (19256/10000 : ℚ) 2 = 193/100 := by
    rw [roundQ_concrete
      (show (19256/10000 : ℚ) * (10 : ℚ) ^ (2 : ℤ) = 4814/25 from by norm_num)
      (show ⌈(4814/25 : ℚ) - 1/2⌉ = 193 from ceil_eq_of (by norm_num) (by norm_num))]
    norm_num
  have hlogA : Int.log 10 |(22/100 : ℚ)| = -1 := by
    rw [show |(22/100 : ℚ)| = 22/100 from by norm_num]
    exact int_log10_eq (by norm_num) (by norm_num)
  have htrA : truncQ (22/100 : ℚ) 1 = 1/5 := by
    rw [truncQ_eq_floor (by norm_num),
      show ((22/100 : ℚ) * (10 : ℚ) ^ (1 : ℤ)) = 11/5 from by norm_num,
      show ⌊(11/5 : ℚ)⌋ = 2 from floor_eq_of (by norm_num) (by norm_num)]
    norm_num
  have hlogA2 : Int.log 10 (1/5 : ℚ) = -1 :=
    int_log10_eq (by norm_num) (by norm_num)
  have hrA1 : roundQ (1014/100 : ℚ) 1 = 101/10 := by
    rw [roundQ_concrete (show (1014/100 : ℚ) * (10 : ℚ) ^ (1 : ℤ) = 507/5 from by norm_num)
      (show ⌈(507/5 : ℚ) - 1/2⌉ = 101 from ceil_eq_of (by norm_num) (by norm_num))]
    norm_num
  have hrA2 : roundQ (22/100 : ℚ) 1 = 1/5 := by
    rw [roundQ_concrete (show (22/100 : ℚ) * (10 : ℚ) ^ (1 : ℤ) = 11/5 from by norm_num)
      (show ⌈(11/5 : ℚ) - 1/2⌉ = 2 from ceil_eq_of (by norm_num) (by norm_num))]
    norm_num
  have hcondA : ¬(0 < truncQ (22/100 : ℚ) (-(Int.log 10 |(22/100 : ℚ)|)) ∧
      truncQ (22/100 : ℚ) (-(Int.log 10 |(22/100 : ℚ)|)) =
        (10 : ℚ) ^ (Int.log 10 (truncQ (22/100 : ℚ) (-(Int.log 10 |(22/100 : ℚ)|)))) ∧
      roundQ (22/100 : ℚ) (-(Int.log 10 |(22/100 : ℚ)|)) =
        (10 : ℚ) ^ (-(-(Int.log 10 |(22/100 : ℚ)|)))) := by
    rw [hlogA, show (-(-1 : ℤ)) = 1 from by norm_num, htrA, hlogA2]
    rintro ⟨-, h, -⟩
    norm_num at h
  have hapA : aproxQ (1014/100) (22/100) = (101/10, 2/10) := by
    rw [aproxQ_of_not_cond _ _ (by norm_num) hcondA, hlogA,
      show (-(-1 : ℤ)) = 1 from by norm_num, hrA1, hrA2]
    norm_num
  have hlogB : Int.log 10 |(151/1000 : ℚ)| = -1 := by
    rw [show |(151/1000 : ℚ)| = 151/1000 from by norm_num]
    exact int_log10_eq (by norm_num) (by norm_num)
  have hrB2 : roundQ (151/1000 : ℚ) 1 = 1/5 := by
    rw [roundQ_concrete (show (151/1000 : ℚ) * (10 : ℚ) ^ (1 : ℤ) = 151/100 from by norm_num)
      (show ⌈(151/100 : ℚ) - 1/2⌉ = 2 from ceil_eq_of (by norm_num) (by norm_num))]
    norm_num
  have hcondB : ¬(0 < truncQ (151/1000 : ℚ) (-(Int.log 10 |(151/1000 : ℚ)|)) ∧
      truncQ (151/1000 : ℚ) (-(Int.log 10 |(151/1000 : ℚ)|)) =
        (10 : ℚ) ^ (Int.log 10 (truncQ (151/1000 : ℚ) (-(Int.log 10 |(151/1000 : ℚ)|)))) ∧
      roundQ (151/1000 : ℚ) (-(Int.log 10 |(151/1000 : ℚ)|)) =
        (10 : ℚ) ^ (-(-(Int.log 10 |(151/1000 : ℚ)|)))) := by
    rw [hlogB, show (-(-1 : ℤ)) = 1 from by norm_num, hrB2]
    rintro ⟨-, -, h⟩
    norm_num at h
  have hapB : aproxQ (1014/100) (151/1000) = (101/10, 2/10) := by
    rw [aproxQ_of_not_cond _ _ (by norm_num) hcondB, hlogB,
      show (-(-1 : ℤ)) = 1 from by norm_num, hrA1, hrB2]
    norm_num
  have hlogC : Int.log 10 |(1/10 : ℚ)| = -1 := by
    rw [show |(1/10 : ℚ)| = 1/10 from by norm_num]
    exact int_log10_eq (by norm_num) (by norm_num)
  have hlogC2 : Int.log 10 (1/10 : ℚ) = -1 :=
    int_log10_eq (by norm_num) (by norm_num)
  have htrC : truncQ (1/10 : ℚ) 1 = 1/10 := by
    rw [truncQ_eq_floor (by norm_num),
      show ((1/10 : ℚ) * (10 : ℚ) ^ (1 : ℤ)) = 1 from by norm_num,
      show ⌊(1 : ℚ)⌋ = 1 from floor_eq_of (by norm_num) (by norm_num)]
    norm_num
  have hrC : roundQ (1/10 : ℚ) 1 = 1/10 := by
    rw [roundQ_concrete (show (1/10 : ℚ) * (10 : ℚ) ^ (1 : ℤ) = 1 from by norm_num)
      (show ⌈(1 : ℚ) - 1/2⌉ = 1 from ceil_eq_of (by norm_num) (by norm_num))]
    norm_num
  have hcondC : 0 < truncQ (1/10 : ℚ) (-(Int.log 10 |(1/10 : ℚ)|)) ∧
      truncQ (1/10 : ℚ) (-(Int.log 10 |(1/10 : ℚ)|)) =
        (10 : ℚ) ^ (Int.log 10 (truncQ (1/10 : ℚ) (-(Int.log 10 |(1/10 : ℚ)|)))) ∧
      roundQ (1/10 : ℚ) (-(Int.log 10 |(1/10 : ℚ)|)) =
        (10 : ℚ) ^ (-(-(Int.log 10 |(1/10 : ℚ)|))) := by
    rw [hlogC, show (-(-1 : ℤ)) = 1 from by norm_num, htrC, hlogC2]
    refine ⟨by norm_num, by norm_num, ?_⟩
    rw [hrC]
    norm_num
  have hrC1 : roundQ (1005/100 : ℚ) 2 = 1005/100 := by
    rw [roundQ_concrete (show (1005/100 : ℚ) * (10 : ℚ) ^ (2 : ℤ) = 1005 from by norm_num)
      (show ⌈(1005 : ℚ) - 1/2⌉ = 1005 from ceil_eq_of (by norm_num) (by norm_num))]
    norm_num
  have hrC2 : roundQ (1/10 : ℚ) 2 = 1/10 := by
    rw [roundQ_concrete (show (1/10 : ℚ) * (10 : ℚ) ^ (2 : ℤ) = 10 from by norm_num)
      (show ⌈(10 : ℚ) - 1/2⌉ = 10 from ceil_eq_of (by norm_num) (by norm_num))]
    norm_num
  have hapC : aproxQ (1005/100) (1/10) = (1005/100, 1/10) := by
    rw [aproxQ_of_cond _ _ (by norm_num) hcondC, hlogC,
      show (-(-1 : ℤ) + 1) = 2 from by norm_num, hrC1, hrC2]
  exact ⟨hround1, hround2, hround3, hapA, hapB, hapC⟩

/-! ## Claim C2: the constructor's length check and broadcast -/

/-- The error component of `aproxQ` does not depend on the value argument
(the rounding position is computed from the error alone). -/
theorem aproxQ_snd_const (v w e : ℚ) : (aproxQ v e).2 = (aproxQ w e).2 := by
  by_cases he : e = 0
  · simp [aproxQ, he]
  · by_cases hc : 0 < truncQ e (-(Int.log 10 |e|)) ∧
        truncQ e (-(Int.log 10 |e|)) =
          (10 : ℚ) ^ (Int.log 10 (truncQ e (-(Int.log 10 |e|)))) ∧
        roundQ e (-(Int.log 10 |e|)) = (10 : ℚ) ^ (-(-(Int.log 10 |e|)))
    · rw [aproxQ_of_cond v e he hc, aproxQ_of_cond w e he hc]
    · rw [aproxQ_of_not_cond v e he hc, aproxQ_of_not_cond w e he hc]

/-- C2 (amended): `Measure::new` fails with `InvalidErrorLength` iff the
error length is neither 1 nor the value length; the spec's test formulation
`1 < m < n ∨ m > n` is equivalent whenever both vectors are nonempty; and for
a length-1 error vector construction succeeds with an error vector of length
`n` whose entries all equal the supplied scalar when `auto_approximate` is
off (and its approximation when on). -/
theorem C2_constructor_invalid_error_length (value error : List ℚ) (ap : Bool) :
    (measureNewQ value error ap = .error .invalidErrorLen ↔
      (error.length ≠ 1 ∧ error.length ≠ value.length)) ∧
    (1 ≤ error.length → 1 ≤ value.length →
      (measureNewQ value error ap = .error .invalidErrorLen ↔
        ((1 < error.length ∧ error.length < value.length) ∨
          value.length < error.length))) ∧
    (error.length = 1 →
      ∃ m, measureNewQ value error ap = .ok m ∧
        m.error.length = value.length ∧
        ∀ x ∈ m.error,
          x = if ap then (aproxQ 0 (error.getD 0 0)).2 else error.getD 0 0) := by
  have h1 : measureNewQ value error ap = .error .invalidErrorLen ↔
      (error.length ≠ 1 ∧ error.length ≠ value.length) := by
    by_cases h : value.length ≠ error.length ∧ error.length ≠ 1
    · unfold measureNewQ
      rw [if_pos h]
      exact ⟨fun _ => ⟨h.2, fun he => h.1 he.symm⟩, fun _ => rfl⟩
    · unfold measureNewQ
      rw [if_neg h]
      constructor
      · intro hcontra
        cases ap <;> simp at hcontra
      · rintro ⟨hm1, hmn⟩
        push_neg at h
        rcases eq_or_ne value.length error.length with hnm | hnm
        · exact absurd hnm.symm hmn
        · exact absurd (h hnm) hm1
  refine ⟨h1, fun hm hn => h1.trans (by omega), ?_⟩
  intro hm1
  have hcond : ¬(value.length ≠ error.length ∧ error.length ≠ 1) := by
    rintro ⟨-, h2⟩
    exact h2 hm1
  have herr2 : (if error.length = 1 then
      List.replicate value.length (error.getD 0 0) else error) =
      List.replicate value.length (error.getD 0 0) := if_pos hm1
  cases ap with
  | false =>
    refine ⟨⟨value, List.replicate value.length (error.getD 0 0), .PM⟩, ?_, ?_, ?_⟩
    · unfold measureNewQ
      rw [if_neg hcond, herr2]
      simp
    · simp
    · intro x hx
      simp only [if_neg Bool.false_ne_true]
      exact List.eq_of_mem_replicate hx
  | true =>
    refine ⟨⟨((value.zip (List.replicate value.length (error.getD 0 0))).map
        (fun p => aproxQ p.1 p.2)).map Prod.fst,
      ((value.zip (List.replicate value.length (error.getD 0 0))).map
        (fun p => aproxQ p.1 p.2)).map Prod.snd, .PM⟩, ?_, ?_, ?_⟩
    · unfold measureNewQ
      rw [if_neg hcond, herr2]
      simp
    · simp only [List.length_map, List.length_zip, List.length_replicate, min_self]
    · intro x hx
      simp only [List.mem_map] at hx
      obtain ⟨p, hp, hxp⟩ := hx
      obtain ⟨q, hq, hqp⟩ := hp
      have hq2 : q.2 = error.getD 0 0 :=
        List.eq_of_mem_replicate (List.of_mem_zip hq).2
      rw [← hxp, ← hqp, hq2, aproxQ_snd_const q.1 0]
      simp

/-- C2 counterexample: (a) with `values = [1]`, `errors = []` the constructor
fails (the error length 0 is neither 1 nor n), but the spec's test
formulation `1 < m < n ∨ m > n` is false at `m = 0, n = 1`; (b) with a
length-1 error vector and `auto_approximate` on, the stored entry is the
approximated error `0.2`, not the supplied `0.151`. -/
theorem C2_counterexample_empty_error_and_approximated_broadcast :
    (measureNewQ [1] [] false = .error .invalidErrorLen ∧
      ¬((1 < ([] : List ℚ).length ∧ ([] : List ℚ).length < ([1] : List ℚ).length) ∨
        ([] : List ℚ).length > ([1] : List ℚ).length)) ∧
    (measureNewQ [1] [151/1000] true = .ok ⟨[1], [1/5], .PM⟩ ∧
      (1/5 : ℚ) ≠ 151/1000) := by
  refine ⟨⟨?_, by simp⟩, ⟨?_, by norm_num⟩⟩
  · unfold measureNewQ
    rw [if_pos (by simp)]
  · have hlogB : Int.log 10 |(151/1000 : ℚ)| = -1 := by
      rw [show |(151/1000 : ℚ)| = 151/1000 from by norm_num]
      exact int_log10_eq (by norm_num) (by norm_num)
    have hrB2 : roundQ (151/1000 : ℚ) 1 = 1/5 := by
      rw [roundQ_concrete
        (show (151/1000 : ℚ) * (10 : ℚ) ^ (1 : ℤ) = 151/100 from by norm_num)
        (show ⌈(151/100 : ℚ) - 1/2⌉ = 2 from ceil_eq_of (by norm_num) (by norm_num))]
      norm_num
    have hr1 : roundQ (1 : ℚ) 1 = 1 := by
      rw [roundQ_concrete (show (1 : ℚ) * (10 : ℚ) ^ (1 : ℤ) = 10 from by norm_num)
        (show ⌈(10 : ℚ) - 1/2⌉ = 10 from ceil_eq_of (by norm_num) (by norm_num))]
      norm_num
    have hcondB : ¬(0 < truncQ (151/1000 : ℚ) (-(Int.log 10 |(151/1000 : ℚ)|)) ∧
        truncQ (151/1000 : ℚ) (-(Int.log 10 |(151/1000 : ℚ)|)) =
          (10 : ℚ) ^
            (Int.log 10 (truncQ (151/1000 : ℚ) (-(Int.log 10 |(151/1000 : ℚ)|)))) ∧
        roundQ (151/1000 : ℚ) (-(Int.log 10 |(151/1000 : ℚ)|)) =
          (10 : ℚ) ^ (-(-(Int.log 10 |(151/1000 : ℚ)|)))) := by
      rw [hlogB, show (-(-1 : ℤ)) = 1 from by norm_num, hrB2]
      rintro ⟨-, -, h⟩
      norm_num at h
    have hap : aproxQ 1 (151/1000) = (1, 1/5) := by
      rw [aproxQ_of_not_cond _ _ (by norm_num) hcondB, hlogB,
        show (-(-1 : ℤ)) = 1 from by norm_num, hr1, hrB2]
    unfold measureNewQ
    rw [if_neg (by simp)]
    simp [hap]

/-- Witness for C2: the amended characterisation applied to
`values = [1, 2]`, `errors = [1/2]`, `auto_approximate` off. -/
theorem C2_witness :
    (measureNewQ [1, 2] [1/2] false = .error .invalidErrorLen ↔
      (([1/2] : List ℚ).length ≠ 1 ∧
        ([1/2] : List ℚ).length ≠ ([1, 2] : List ℚ).length)) ∧
    (measureNewQ [1, 2] [1/2] false = .error .invalidErrorLen ↔
      ((1 < ([1/2] : List ℚ).length ∧
        ([1/2] : List ℚ).length < ([1, 2] : List ℚ).length) ∨
        ([1, 2] : List ℚ).length < ([1/2] : List ℚ).length)) ∧
    (∃ m, measureNewQ [1, 2] [1/2] false = .ok m ∧
      m.error.length = ([1, 2] : List ℚ).length ∧
      ∀ x ∈ m.error,
        x = if false then (aproxQ 0 (([1/2] : List ℚ).getD 0 0)).2
          else ([1/2] : List ℚ).getD 0 0) := by
  refine ⟨(C2_constructor_invalid_error_length [1, 2] [1/2] false).1,
    (C2_constructor_invalid_error_length [1, 2] [1/2] false).2.1
      (by decide) (by decide),
    (C2_constructor_invalid_error_length [1, 2] [1/2] false).2.2 rfl⟩

/-! ## Claims C1 and C4: the Nelder-Mead search -/

/-- With an iteration budget of one, the loop performs exactly one step
(whether or not the convergence test fires, the same state is returned). -/
theorem nmLoop_one (f : List ℚ → ℚ) (n : ℕ) (tol : ℚ) (st : NMState) :
    nmLoop f n tol 1 st = nmStep f n st := by
  show nmLoop f n tol (0 + 1) st = nmStep f n st
  unfold nmLoop
  simp only [nmLoop, ite_self]

/-- C1: `nelder_mead` returns `simplex[0]` — the content of physical slot 0
of the never-reordered simplex vector — not the best vertex.  On the
objective `f(p) = p₀` with initial point `[0]`, cap 1, tolerance 1 and
scale 1, the single iteration replaces the worst vertex by the expansion
point `[-2]` (value `-2`), stored in slot 1; the returned vector is the
untouched slot 0 vertex `[0]` (value `0`), although the simplex holds the
strictly better vertex `[-2]`. -/
theorem C1_nelder_mead_returns_slot0_not_best_vertex :
    nelderMeadQ (fun p => p.getD 0 0) [0] 1 1 1 = [0] ∧
    (nelderMeadStateQ (fun p => p.getD 0 0) [0] 1 1 1).simplex = [[0], [-2]] ∧
    (nelderMeadStateQ (fun p => p.getD 0 0) [0] 1 1 1).values = [0, -2] ∧
    (([-2] : List ℚ).getD 0 0 < ([0] : List ℚ).getD 0 0) := by
  have hgen : generateInitialSimplex [(0 : ℚ)] 1 = [[0], [1]] := by
    rw [generateInitialSimplex, show List.range ([(0 : ℚ)] : List ℚ).length = [0] from rfl]
    norm_num [List.set, List.getD]
  have hvals : [[(0 : ℚ)], [1]].map (fun p => p.getD 0 0) = [0, 1] := by
    norm_num [List.getD]
  have hsort : sortIdx [(0 : ℚ), 1] = [0, 1] := by
    unfold sortIdx
    rw [show ([(0 : ℚ), 1] : List ℚ).length = 2 from rfl,
      show List.range 2 = [0, 1] from rfl]
    norm_num [insertIdxByVal]
  have hstep : nmStep (fun p => p.getD 0 0) 1 ⟨[[(0 : ℚ)], [1]], [(0 : ℚ), 1]⟩ =
      ⟨[[0], [-2]], [0, -2]⟩ := by
    simp only [nmStep]
    rw [hsort]
    norm_num [List.take, List.foldl, List.zipWith, List.set, List.getD, List.replicate]
  have hstate : nelderMeadStateQ (fun p => p.getD 0 0) [0] 1 1 1 =
      ⟨[[0], [-2]], [0, -2]⟩ := by
    simp only [nelderMeadStateQ, hgen]
    rw [show ([(0 : ℚ)] : List ℚ).length = 1 from rfl, hvals, nmLoop_one, hstep]
  refine ⟨?_, by rw [hstate], by rw [hstate], by norm_num [List.getD]⟩
  rw [nelderMeadQ, hstate]
  norm_num [List.getD]

/-- C4: in the Nelder-Mead iteration, (i) the reflection-acceptance branch
tests `r < values[indices[0]] && r >= values[indices[n-1]]`, which is
unsatisfiable for sorted values, so a reflection that beats the
best-but-not-worst vertex is never accepted directly; (ii) expansion is
attempted whenever `r < values[indices[n-1]]`, not only when `r` beats the
best; (iii) the expansion point is `centroid[0] + 2(r_j - c_j)` with the
FIRST centroid coordinate in every component.  Concretely, on
`f(p) = p₀ + p₁` from `[0, 10]` with scale 2: the sorted values are
`[10, 12, 12]`, the centroid is `[1, 10]`, the reflection is `[2, 8]` with
value `10`, which beats the best-but-not-worst value `12` — the claim
predicts the worst slot becomes the reflection `[2, 8]` (no expansion, since
`10` does not beat the best `10`), and the claim's expansion formula would
give `[3, 6]`; the code instead stores `[3, -3]`. -/
theorem C4_reflection_branch_dead_and_expansion_garbled :
    (nelderMeadStateQ (fun p => p.getD 0 0 + p.getD 1 0) [0, 10] 1 1 2).simplex =
      [[0, 10], [2, 10], [3, -3]] ∧
    (nelderMeadStateQ (fun p => p.getD 0 0 + p.getD 1 0) [0, 10] 1 1 2).values =
      [10, 12, 0] ∧
    ([3, -3] : List ℚ) ≠ [2, 8] ∧ ([3, -3] : List ℚ) ≠ [3, 6] ∧
    ((10 : ℚ) < 12) := by
  have hgen : generateInitialSimplex [(0 : ℚ), 10] 2 = [[0, 10], [2, 10], [0, 12]] := by
    rw [generateInitialSimplex,
      show List.range ([(0 : ℚ), 10] : List ℚ).length = [0, 1] from rfl]
    norm_num [List.set, List.getD]
  have hvals : [[(0 : ℚ), 10], [2, 10], [0, 12]].map
      (fun p => p.getD 0 0 + p.getD 1 0) = [10, 12, 12] := by
    norm_num [List.getD]
  have hsort : sortIdx [(10 : ℚ), 12, 12] = [0, 1, 2] := by
    unfold sortIdx
    rw [show ([(10 : ℚ), 12, 12] : List ℚ).length = 3 from rfl,
      show List.range 3 = [0, 1, 2] from rfl]
    norm_num [insertIdxByVal]
  have hstep : nmStep (fun p => p.getD 0 0 + p.getD 1 0) 2
      ⟨[[(0 : ℚ), 10], [2, 10], [0, 12]], [(10 : ℚ), 12, 12]⟩ =
      ⟨[[0, 10], [2, 10], [3, -3]], [10, 12, 0]⟩ := by
    simp only [nmStep]
    rw [hsort]
    norm_num [List.take, List.foldl, List.zipWith, List.set, List.getD, List.replicate]
  have hstate : nelderMeadStateQ (fun p => p.getD 0 0 + p.getD 1 0) [0, 10] 1 1 2 =
      ⟨[[0, 10], [2, 10], [3, -3]], [10, 12, 0]⟩ := by
    simp only [nelderMeadStateQ, hgen]
    rw [show ([(0 : ℚ), 10] : List ℚ).length = 2 from rfl, hvals, nmLoop_one, hstep]
  refine ⟨by rw [hstate], by rw [hstate], ?_, ?_, by norm_num⟩
  · intro h
    have h2 := congrArg (fun l => List.getD l 0 (0 : ℚ)) h
    norm_num [List.getD] at h2
  · intro h
    have h2 := congrArg (fun l => List.getD l 1 (0 : ℚ)) h
    norm_num [List.getD] at h2

/-! ## Claim C3: quotient error propagation -/

/-- C3: the `Div` error formula of src/src/macros.rs is NOT the standard
quadrature.  At `a = [1,1] ± [0,0]`, `b = [2,2] ± [1,1]` the code computes
`sqrt((1/b·sa)² + (a/b²·sb²)) = sqrt(1/4) = 1/2` in each slot, while the
claimed formula `sqrt((sa/b)² + (a·sb/b²)²) = sqrt(1/16) = 1/4`: the second
quadrature term `a·sb/b²` is not squared in the code (the `.powi(2)` sits on
`sb` alone). -/
theorem C3_div_error_second_term_not_squared :
    (Measure.div ⟨[1, 1], [0, 0], .PM⟩ ⟨[2, 2], [1, 1], .PM⟩).error =
      [Real.sqrt (1/4), Real.sqrt (1/4)] ∧
    Real.sqrt (1/4) = 1/2 ∧
    Real.sqrt (((0 : ℝ)/2)^2 + (1 * 1/2^2)^2) = 1/4 ∧
    ((1/2 : ℝ) ≠ 1/4) := by
  refine ⟨?_, ?_, ?_, by norm_num⟩
  · simp only [Measure.div, Measure.len]
    norm_num [List.zip, List.zipWith]
  · rw [show (1/4 : ℝ) = (1/2)^2 from by norm_num]
    exact Real.sqrt_sq (by norm_num)
  · rw [show (((0 : ℝ)/2)^2 + (1 * 1/2^2)^2) = (1/4)^2 from by norm_num]
    exact Real.sqrt_sq (by norm_num)

/-! ## Claim C10: result styles are always PM -/

/-- C10: every Measure produced by an arithmetic operator (Measure-Measure
or Measure-number in either order) or an elementwise transform carries the
style tag `PM`, regardless of the operands' styles; `change_style` is the
operation that installs any other style. -/
theorem C10_all_operations_produce_style_PM (a b : Measure) (num : ℝ)
    (p : ℝ) (l : List (ℝ × ℝ)) (s : Style) :
    (Measure.add a b).style = .PM ∧ (Measure.sub a b).style = .PM ∧
    (Measure.mul a b).style = .PM ∧ (Measure.div a b).style = .PM ∧
    (Measure.addNum a num).style = .PM ∧ (Measure.subNum a num).style = .PM ∧
    (Measure.mulNum a num).style = .PM ∧ (Measure.divNum a num).style = .PM ∧
    (Measure.numAdd num a).style = .PM ∧ (Measure.numSub num a).style = .PM ∧
    (Measure.numMul num a).style = .PM ∧ (Measure.numDiv num a).style = .PM ∧
    (Measure.powM a p).style = .PM ∧ (Measure.rad a).style = .PM ∧
    (Measure.grad a).style = .PM ∧ (Measure.sqrtM a).style = .PM ∧
    (Measure.absM a).style = .PM ∧ (Measure.sinM a).style = .PM ∧
    (Measure.cosM a).style = .PM ∧ (Measure.tanM a).style = .PM ∧
    (Measure.asinM a).style = .PM ∧ (Measure.acosM a).style = .PM ∧
    (Measure.atanM a).style = .PM ∧ (Measure.atan2M a b).style = .PM ∧
    (Measure.lnM a).style = .PM ∧ (Measure.expM a).style = .PM ∧
    (Measure.delta a).style = .PM ∧ (Measure.estimation a).style = .PM ∧
    (Measure.ofList l).style = .PM ∧
    (Measure.changeStyle a s).style = s := by
  refine ⟨?_, ?_, ?_, ?_, rfl, rfl, rfl, rfl, rfl, rfl, rfl, rfl, rfl, rfl,
    rfl, rfl, rfl, rfl, rfl, rfl, rfl, rfl, rfl, rfl, rfl, rfl, rfl, rfl,
    rfl, rfl⟩ <;>
  · simp only [Measure.add, Measure.sub, Measure.mul, Measure.div]
    split_ifs <;> rfl

/-! ## Claim C7: quadrature of sum errors -/

theorem getD_map {α β : Type} (f : α → β) (l : List α) (i : ℕ) (d : β) (e : α)
    (h : i < l.length) : (l.map f).getD i d = f (l.getD i e) := by
  induction l generalizing i with
  | nil => simp at h
  | cons a t ih =>
    cases i with
    | zero => rfl
    | succ n =>
      simp only [List.map_cons, List.getD_cons_succ]
      exact ih n (by simpa using h)

theorem getD_zipWith {α β γ : Type} (f : α → β → γ) (l1 : List α) (l2 : List β)
    (i : ℕ) (d : γ) (e1 : α) (e2 : β) (h1 : i < l1.length) (h2 : i < l2.length) :
    (List.zipWith f l1 l2).getD i d = f (l1.getD i e1) (l2.getD i e2) := by
  induction l1 generalizing l2 i with
  | nil => simp at h1
  | cons a t ih =>
    cases l2 with
    | nil => simp at h2
    | cons b s =>
      cases i with
      | zero => rfl
      | succ n =>
        simp only [List.zipWith_cons_cons, List.getD_cons_succ]
        exact ih s n (by simpa using h1) (by simpa using h2)

/-- C7: for two Measures of equal length, every error of the sum is the
quadrature `sqrt(sa_i² + sb_i²)`; and a length-1 Measure added to a
length-n Measure yields a length-n result whose errors combine the scalar's
error with each element's error by the same rule (in both operand orders). -/
theorem C7_add_error_quadrature (a b : Measure)
    (ha : a.value.length = a.error.length) (hb : b.value.length = b.error.length) :
    (a.error.length = b.error.length →
      ∀ i, i < a.error.length →
        (Measure.add a b).error.getD i 0 =
          Real.sqrt ((a.error.getD i 0) ^ 2 + (b.error.getD i 0) ^ 2)) ∧
    (a.len = 1 →
      (Measure.add a b).value.length = b.value.length ∧
      ∀ i, i < b.error.length →
        (Measure.add a b).error.getD i 0 =
          Real.sqrt ((a.error.getD 0 0) ^ 2 + (b.error.getD i 0) ^ 2)) ∧
    (a.len ≠ 1 → b.len = 1 →
      (Measure.add a b).value.length = a.value.length ∧
      ∀ i, i < a.error.length →
        (Measure.add a b).error.getD i 0 =
          Real.sqrt ((a.error.getD i 0) ^ 2 + (b.error.getD 0 0) ^ 2)) := by
  refine ⟨?_, ?_, ?_⟩
  · intro hlen i hi
    simp only [Measure.add, Measure.len]
    split_ifs with h1 h2
    · -- a has length 1, so i = 0 and the broadcast formula coincides
      have hi0 : i = 0 := by
        rw [h1] at ha
        omega
      subst hi0
      rw [getD_map _ _ _ _ 0 (by omega)]
    · -- b has length 1; with equal error lengths a also has length 1: absurd
      exfalso
      rw [h2] at hb
      omega
    · rw [getD_zipWith _ _ _ _ _ 0 0 hi (by omega)]
  · intro h1
    have h1' : a.value.length = 1 := h1
    constructor
    · simp only [Measure.add, Measure.len, if_pos h1', List.length_map]
    · intro i hi
      simp only [Measure.add, Measure.len, if_pos h1']
      rw [getD_map _ _ _ _ 0 hi]
  · intro h1 h2
    have h1' : ¬(a.value.length = 1) := h1
    have h2' : b.value.length = 1 := h2
    constructor
    · simp only [Measure.add, Measure.len, if_neg h1', if_pos h2', List.length_map]
    · intro i hi
      simp only [Measure.add, Measure.len, if_neg h1', if_pos h2']
      rw [getD_map _ _ _ _ 0 (by omega)]

/-- Witness for C7: the quadrature at `a = [3, 4] ± [1, 2]`,
`b = [5, 6] ± [2, 3]` and the broadcast at `c = [7] ± [3]`. -/
theorem C7_witness :
    (((⟨[3, 4], [1, 2], .PM⟩ : Measure)).value.length =
        ((⟨[3, 4], [1, 2], .PM⟩ : Measure)).error.length ∧
      ((⟨[5, 6], [2, 3], .PM⟩ : Measure)).value.length =
        ((⟨[5, 6], [2, 3], .PM⟩ : Measure)).error.length ∧
      ((⟨[3, 4], [1, 2], .PM⟩ : Measure)).error.length =
        ((⟨[5, 6], [2, 3], .PM⟩ : Measure)).error.length ∧ (0 : ℕ) < 2) ∧
    (Measure.add ⟨[3, 4], [1, 2], .PM⟩ ⟨[5, 6], [2, 3], .PM⟩).error.getD 0 0 =
      Real.sqrt (((⟨[3, 4], [1, 2], .PM⟩ : Measure)).error.getD 0 0 ^ 2 +
        ((⟨[5, 6], [2, 3], .PM⟩ : Measure)).error.getD 0 0 ^ 2) ∧
    (Measure.add ⟨[7], [3], .PM⟩ ⟨[5, 6], [2, 3], .PM⟩).value.length =
      ((⟨[5, 6], [2, 3], .PM⟩ : Measure)).value.length := by
  refine ⟨⟨rfl, rfl, rfl, by omega⟩, ?_, ?_⟩
  · exact (C7_add_error_quadrature ⟨[3, 4], [1, 2], .PM⟩ ⟨[5, 6], [2, 3], .PM⟩
      rfl rfl).1 rfl 0 (by simp)
  · exact ((C7_add_error_quadrature ⟨[7], [3], .PM⟩ ⟨[5, 6], [2, 3], .PM⟩
      rfl rfl).2.1 rfl).1

/-! ## Claim C8: the fit error formulas -/

/-- `Measure::new` with one value, one error and no auto-approximation
always succeeds and stores the pair as given. -/
theorem measureNew_singleton (a e : ℝ) :
    Measure.new [a] [e] false = .ok ⟨[a], [e], .PM⟩ := by
  unfold Measure.new
  rw [if_neg (by simp)]
  simp

/-- C8: the weighted linear fit reports slope error
`sqrt(Σw / (Σw·Σx²w − (Σxw)²))` and intercept error `sqrt(Σx²w / (...))`,
with no residual-scale factor, while the unweighted fit multiplies both its
error square roots by the residual scale `σ_y = sqrt(Σ residuals²/(n−2))`. -/
theorem C8_fit_error_formulas (x y yerr : List ℝ)
    (hxy : x.length = y.length) (hxe : x.length = yerr.length) :
    ((wlinearFit x y yerr).1.error =
      [Real.sqrt (sumW yerr / (sumW yerr * sumX2W x yerr - sumXW x yerr ^ 2))]) ∧
    ((wlinearFit x y yerr).2.error =
      [Real.sqrt (sumX2W x yerr / (sumW yerr * sumX2W x yerr - sumXW x yerr ^ 2))]) ∧
    ((linearFit x y).1.error =
      [linSigmaY x y *
        Real.sqrt ((x.length : ℝ) / ((x.length : ℝ) * sumX2 x - sumX x ^ 2))]) ∧
    ((linearFit x y).2.error =
      [linSigmaY x y *
        Real.sqrt (sumX2 x / ((x.length : ℝ) * sumX2 x - sumX x ^ 2))]) := by
  refine ⟨?_, ?_, ?_, ?_⟩ <;>
    simp only [wlinearFit, linearFit, measureNew_singleton, Except.toOption,
      Option.getD]

/-- Witness for C8: the formulas at `x = [1, 2, 3]`, `y = [2, 4, 6]`,
`yerr = [1, 1, 1]`. -/
theorem C8_witness :
    (([1, 2, 3] : List ℝ).length = ([2, 4, 6] : List ℝ).length ∧
      ([1, 2, 3] : List ℝ).length = ([1, 1, 1] : List ℝ).length) ∧
    (wlinearFit [1, 2, 3] [2, 4, 6] [1, 1, 1]).1.error =
      [Real.sqrt (sumW [1, 1, 1] /
        (sumW [1, 1, 1] * sumX2W [1, 2, 3] [1, 1, 1] -
          sumXW [1, 2, 3] [1, 1, 1] ^ 2))] ∧
    (linearFit [1, 2, 3] [2, 4, 6]).1.error =
      [linSigmaY [1, 2, 3] [2, 4, 6] *
        Real.sqrt ((([1, 2, 3] : List ℝ).length : ℝ) /
          ((([1, 2, 3] : List ℝ).length : ℝ) * sumX2 [1, 2, 3] -
            sumX [1, 2, 3] ^ 2))] := by
  refine ⟨⟨rfl, rfl⟩, ?_, ?_⟩
  · exact (C8_fit_error_formulas [1, 2, 3] [2, 4, 6] [1, 1, 1] rfl rfl).1
  · exact (C8_fit_error_formulas [1, 2, 3] [2, 4, 6] [1, 1, 1] rfl rfl).2.2.1

/-! ## Claim C6: the `len(values) == len(errors)` invariant -/

/-- C6: the invariant `value.length = error.length` is established by the
constructor (broadcasting a length-1 error vector, rejecting other
mismatches) and preserved by every Measure-producing or mutating operation:
the four arithmetic operators in all broadcast branches, all scalar-operand
operators, every elementwise transform, `delta`, `estimation`, `aprox`, the
per-index setters and `FromIterator` collection. -/
theorem C6_length_invariant (a b : Measure) (v e : List ℝ) (ap : Bool)
    (num pw s1 s2 : ℝ) (i : ℕ) (l : List (ℝ × ℝ))
    (ha : a.value.length = a.error.length) (hb : b.value.length = b.error.length) :
    (∀ m', Measure.new v e ap = .ok m' → m'.value.length = m'.error.length) ∧
    (Measure.add a b).value.length = (Measure.add a b).error.length ∧
    (Measure.sub a b).value.length = (Measure.sub a b).error.length ∧
    (Measure.mul a b).value.length = (Measure.mul a b).error.length ∧
    (Measure.div a b).value.length = (Measure.div a b).error.length ∧
    (Measure.addNum a num).value.length = (Measure.addNum a num).error.length ∧
    (Measure.subNum a num).value.length = (Measure.subNum a num).error.length ∧
    (Measure.mulNum a num).value.length = (Measure.mulNum a num).error.length ∧
    (Measure.divNum a num).value.length = (Measure.divNum a num).error.length ∧
    (Measure.numAdd num a).value.length = (Measure.numAdd num a).error.length ∧
    (Measure.numSub num a).value.length = (Measure.numSub num a).error.length ∧
    (Measure.numMul num a).value.length = (Measure.numMul num a).error.length ∧
    (Measure.numDiv num a).value.length = (Measure.numDiv num a).error.length ∧
    (Measure.powM a pw).value.length = (Measure.powM a pw).error.length ∧
    (Measure.rad a).value.length = (Measure.rad a).error.length ∧
    (Measure.grad a).value.length = (Measure.grad a).error.length ∧
    (Measure.sqrtM a).value.length = (Measure.sqrtM a).error.length ∧
    (Measure.absM a).value.length = (Measure.absM a).error.length ∧
    (Measure.sinM a).value.length = (Measure.sinM a).error.length ∧
    (Measure.cosM a).value.length = (Measure.cosM a).error.length ∧
    (Measure.tanM a).value.length = (Measure.tanM a).error.length ∧
    (Measure.asinM a).value.length = (Measure.asinM a).error.length ∧
    (Measure.acosM a).value.length = (Measure.acosM a).error.length ∧
    (Measure.atanM a).value.length = (Measure.atanM a).error.length ∧
    (Measure.atan2M a b).value.length = (Measure.atan2M a b).error.length ∧
    (Measure.lnM a).value.length = (Measure.lnM a).error.length ∧
    (Measure.expM a).value.length = (Measure.expM a).error.length ∧
    (Measure.delta a).value.length = (Measure.delta a).error.length ∧
    (Measure.estimation a).value.length = (Measure.estimation a).error.length ∧
    (Measure.aprox a).value.length = (Measure.aprox a).error.length ∧
    (Measure.set a i (s1, s2)).value.length = (Measure.set a i (s1, s2)).error.length ∧
    (Measure.setValue a i s1).value.length = (Measure.setValue a i s1).error.length ∧
    (Measure.setError a i s2).value.length = (Measure.setError a i s2).error.length ∧
    (Measure.ofList l).value.length = (Measure.ofList l).error.length := by
  have hnew : ∀ m', Measure.new v e ap = .ok m' →
      m'.value.length = m'.error.length := by
    intro m' hm'
    unfold Measure.new at hm'
    by_cases hc : v.length ≠ e.length ∧ e.length ≠ 1
    · rw [if_pos hc] at hm'
      exact absurd hm' (by simp)
    · rw [if_neg hc] at hm'
      push_neg at hc
      by_cases he1 : e.length = 1
      · rw [if_pos he1] at hm'
        cases ap with
        | false =>
          simp only [Bool.false_eq_true, if_false, Except.ok.injEq] at hm'
          rw [← hm']
          simp
        | true =>
          simp only [if_true, Except.ok.injEq] at hm'
          rw [← hm']
          simp
      · rw [if_neg he1] at hm'
        have hve : v.length = e.length := by
          by_contra hne
          exact he1 (hc hne)
        cases ap with
        | false =>
          simp only [Bool.false_eq_true, if_false, Except.ok.injEq] at hm'
          rw [← hm']
          exact hve
        | true =>
          simp only [if_true, Except.ok.injEq] at hm'
          rw [← hm']
          simp
  have hadd : (Measure.add a b).value.length = (Measure.add a b).error.length := by
    simp only [Measure.add, Measure.len]
    split_ifs <;>
      simp [List.length_map, List.length_zipWith, ha, hb]
  have hsub : (Measure.sub a b).value.length = (Measure.sub a b).error.length := by
    simp only [Measure.sub, Measure.len]
    split_ifs <;>
      simp [List.length_map, List.length_zipWith, ha, hb]
  have hmul : (Measure.mul a b).value.length = (Measure.mul a b).error.length := by
    simp only [Measure.mul, Measure.len]
    split_ifs <;>
      simp [List.length_map, List.length_zipWith, List.length_zip, ha, hb, min_self]
  have hdiv : (Measure.div a b).value.length = (Measure.div a b).error.length := by
    simp only [Measure.div, Measure.len]
    split_ifs <;>
      simp [List.length_map, List.length_zipWith, List.length_zip, ha, hb, min_self]
  refine ⟨hnew, hadd, hsub, hmul, hdiv, by simp [Measure.addNum, ha],
    by simp [Measure.subNum, ha], by simp [Measure.mulNum, ha],
    by simp [Measure.divNum, ha], by simp [Measure.numAdd, ha],
    by simp [Measure.numSub, ha], by simp [Measure.numMul, ha],
    by simp [Measure.numDiv, List.length_zip, ha, min_self],
    by simp [Measure.powM, List.length_zip, ha, min_self],
    by simp [Measure.rad, ha], by simp [Measure.grad, ha],
    by simp [Measure.sqrtM, List.length_zip, ha, min_self],
    by simp [Measure.absM, ha],
    by simp [Measure.sinM, List.length_zip, ha, min_self],
    by simp [Measure.cosM, List.length_zip, ha, min_self],
    by simp [Measure.tanM, List.length_zip, ha, min_self],
    by simp [Measure.asinM, List.length_zip, ha, min_self],
    by simp [Measure.acosM, List.length_zip, ha, min_self],
    by simp [Measure.atanM, List.length_zip, ha, min_self],
    by simp [Measure.atan2M, List.length_zip, ha, hb, min_self],
    by simp [Measure.lnM, List.length_zip, ha, min_self],
    by simp [Measure.expM, List.length_zip, ha, min_self],
    by simp [Measure.delta], by simp [Measure.estimation, Measure.len, ha],
    by simp [Measure.aprox], by simp [Measure.set, ha],
    by simp [Measure.setValue, ha], by simp [Measure.setError, ha],
    by simp [Measure.ofList]⟩

/-- Witness for C6: the invariant facts at `a = [1, 2] ± [3, 4]`,
`b = [5] ± [6]`, constructor input `[1], [2]`, index 0. -/
theorem C6_witness :
    (((⟨[1, 2], [3, 4], .PM⟩ : Measure)).value.length =
        ((⟨[1, 2], [3, 4], .PM⟩ : Measure)).error.length ∧
      ((⟨[5], [6], .PM⟩ : Measure)).value.length =
        ((⟨[5], [6], .PM⟩ : Measure)).error.length) ∧
    (∀ m', Measure.new [1] [2] false = .ok m' →
      m'.value.length = m'.error.length) ∧
    (Measure.add ⟨[1, 2], [3, 4], .PM⟩ ⟨[5], [6], .PM⟩).value.length =
      (Measure.add ⟨[1, 2], [3, 4], .PM⟩ ⟨[5], [6], .PM⟩).error.length ∧
    (Measure.div ⟨[1, 2], [3, 4], .PM⟩ ⟨[5], [6], .PM⟩).value.length =
      (Measure.div ⟨[1, 2], [3, 4], .PM⟩ ⟨[5], [6], .PM⟩).error.length ∧
    (Measure.estimation ⟨[1, 2], [3, 4], .PM⟩).value.length =
      (Measure.estimation ⟨[1, 2], [3, 4], .PM⟩).error.length ∧
    (Measure.set ⟨[1, 2], [3, 4], .PM⟩ 0 (9, 9)).value.length =
      (Measure.set ⟨[1, 2], [3, 4], .PM⟩ 0 (9, 9)).error.length := by
  have h := C6_length_invariant ⟨[1, 2], [3, 4], .PM⟩ ⟨[5], [6], .PM⟩
    [1] [2] false 0 0 9 9 0 [(1, 2)] rfl rfl
  exact ⟨⟨rfl, rfl⟩, h.1, h.2.1, h.2.2.2.2.1,
    h.2.2.2.2.2.2.2.2.2.2.2.2.2.2.2.2.2.2.2.2.2.2.2.2.2.2.2.2.1,
    h.2.2.2.2.2.2.2.2.2.2.2.2.2.2.2.2.2.2.2.2.2.2.2.2.2.2.2.2.2.2.1⟩

end FerriLab
